import Mathlib

/-!
Verification development for the agent-chrome CLI.

Shallow embedding of:
  - the ref/tab cache store (`src/refs.js`): path layout, atomic write
    (temp file + rename), load with parse-failure tolerance;
  - the tab identity map (`src/tabs.js`): short-id reconciliation;
  - the snapshot renderer (`src/snapshot.js`): tree rendering with ref
    assignment under the interactive / compact / maxDepth policy knobs;
  - ref resolution (`src/actions.js`): the `@`/`ref=` prefix stripping.

Filesystem state is modelled as `String → Option String` (path to file
content); JavaScript objects are modelled as insertion-ordered association
lists with JS assignment semantics.  `JSON.stringify`/`JSON.parse` are
external collaborators and appear as `enc`/`dec` parameters.
-/

namespace AgentChrome

/-- Numeric value of a digit string (the `parseInt` semantics on digits). -/
def digitsVal (l : List Char) : Nat :=
  l.foldl (fun a c => 10 * a + (c.toNat - 48)) 0

/-! ### Cache store model (src/refs.js) -/


/-- Filesystem state: maps a path to the content of the file there, if any. -/
def FS := String → Option String

def fsUpdate (fs : FS) (p : String) (v : Option String) : FS :=
  fun q => if q = p then v else fs q

/-- Name of the temp file used by `atomicWriteFileSync`; `hex` stands for the
`randomBytes(6).toString('hex')` suffix, drawn from an external random
source. -/
def tmpName (filePath hex : String) : String :=
  filePath ++ "." ++ hex ++ ".tmp"

/-- `atomicWriteFileSync`: write the full content to the temp file, then
rename it onto the target. The rename moves the temp's content to the target
path and removes the temp entry, as a single step. -/
def atomicWriteFileSync (fs : FS) (filePath data hex : String) : FS :=
  let tmp := tmpName filePath hex
  let fs1 := fsUpdate fs tmp (some data)
  fsUpdate (fsUpdate fs1 filePath (fs1 tmp)) tmp none

/-- Split a character list at every occurrence of `sep`; empty components
are kept (`splitOn '/' "a//b"` gives `["a", "", "b"]`). -/
def splitOn (sep : Char) : List Char → List (List Char)
  | [] => [[]]
  | c :: rest =>
    match splitOn sep rest with
    | [] => [[]]
    | s :: ss => if c = sep then [] :: s :: ss else (c :: s) :: ss

/-- Join components with `sep` (left inverse of `splitOn`). -/
def joinWith (sep : Char) : List (List Char) → List Char
  | [] => []
  | [s] => s
  | s :: rest => s ++ sep :: joinWith sep rest

/-- One component step of Node's `normalizeString`: empty and `.`
components are dropped; `..` pops the previous component, except onto
another `..` (kept when the path is relative, dropped at the root of an
absolute path). The accumulator is the reversed component stack. -/
def normStep (abs : Bool) (acc : List (List Char)) (seg : List Char) :
    List (List Char) :=
  if seg = [] ∨ seg = ['.'] then acc
  else if seg = ['.', '.'] then
    match acc with
    | [] => if abs then [] else [seg]
    | top :: rest => if top = ['.', '.'] then (if abs then acc else seg :: acc)
                     else rest
  else seg :: acc

/-- Node's `normalizeString`: resolve `.` and `..` components. -/
def normSegs (abs : Bool) (segs : List (List Char)) : List (List Char) :=
  (segs.foldl (normStep abs) []).reverse

/-- The path begins with the separator. -/
def isAbs (p : String) : Bool := p.data.head? == some '/'

/-- The path ends with the separator. -/
def hasTrailSlash (p : String) : Bool := p.data.getLast? == some '/'

/-- Node's `path.posix.normalize`: split on `/`, resolve `.` and `..`
components, rejoin; an absolute path keeps its leading `/`, a trailing `/`
is kept, and an empty result is `/` (absolute) or `.` (relative). -/
def pathNormalize (p : String) : String :=
  if p.data = [] then "."
  else
    let abs := isAbs p
    let body := joinWith '/' (normSegs abs (splitOn '/' p.data))
    if body = [] then
      if abs then "/" else if hasTrailSlash p then "./" else "."
    else
      (if abs then "/" else "") ++ String.mk body
        ++ (if hasTrailSlash p then "/" else "")

/-- Node's `path.posix.join` of two parts: empty parts are skipped, the
remaining parts are joined with `/` and the result is normalized (all
parts empty give `.`). -/
def pathJoin (a b : String) : String :=
  if a.data = [] then
    if b.data = [] then "." else pathNormalize b
  else if b.data = [] then pathNormalize a
  else pathNormalize (a ++ "/" ++ b)

/-- `getCacheDir`: `join(homedir(), '.agent-chrome')`, descended into
`join(base, agentId)` when an agent id is supplied. A JS-falsy agent id
(absent, or the empty string) selects the base directory. `mkdirSync`
affects only directory existence, not file contents, so it is not
modelled. -/
def getCacheDir (home : String) (agentId : Option String) : String :=
  match agentId with
  | none => pathJoin home ".agent-chrome"
  | some a => if a = "" then pathJoin home ".agent-chrome"
              else pathJoin (pathJoin home ".agent-chrome") a

/-- `refCachePath`:
`join(cacheDir, <port>-<first 8 chars of targetId>.refs.json)`. -/
def refCachePath (home : String) (port : Nat) (targetId : String)
    (agentId : Option String) : String :=
  pathJoin (getCacheDir home agentId)
    (Nat.repr port ++ "-" ++ (targetId.take 8 ++ ".refs.json"))

/-- `tabMapPath`: `join(cacheDir, <port>-tabs.json)`. -/
def tabMapPath (home : String) (port : Nat) (agentId : Option String) : String :=
  pathJoin (getCacheDir home agentId) (Nat.repr port ++ "-tabs.json")

/-- The cache directory as a plain concatenation — what `getCacheDir`
computes when `path.join` performs no normalization (clean absolute home,
plain agent-id component). -/
def getCacheDirFlat (home : String) (agentId : Option String) : String :=
  match agentId with
  | none => home ++ "/" ++ ".agent-chrome"
  | some a => if a = "" then home ++ "/" ++ ".agent-chrome"
              else (home ++ "/" ++ ".agent-chrome") ++ "/" ++ a

/-- `refCachePath` as a plain concatenation (see `getCacheDirFlat`). -/
def refCachePathFlat (home : String) (port : Nat) (targetId : String)
    (agentId : Option String) : String :=
  getCacheDirFlat home agentId ++ "/"
    ++ (Nat.repr port ++ "-" ++ (targetId.take 8 ++ ".refs.json"))

/-- `tabMapPath` as a plain concatenation (see `getCacheDirFlat`). -/
def tabMapPathFlat (home : String) (port : Nat) (agentId : Option String) :
    String :=
  getCacheDirFlat home agentId ++ "/" ++ (Nat.repr port ++ "-tabs.json")

/-- One entry of the persisted ref table. -/
structure RefEntry where
  backendDOMNodeId : Nat
  role : String
  name : String
deriving DecidableEq

/-- `saveRefs`: atomically write the serialized ref map for a tab.
`enc` is the external `JSON.stringify`. -/
def saveRefs {α : Type} (enc : α → String) (home : String) (fs : FS)
    (port : Nat) (targetId : String) (refs : α) (agentId : Option String)
    (hex : String) : FS :=
  atomicWriteFileSync fs (refCachePath home port targetId agentId) (enc refs) hex

/-- `loadRefs`: absent file gives `null`; `dec` is the external `JSON.parse`,
returning `none` on a parse failure (the catch branch). -/
def loadRefs {α : Type} (dec : String → Option α) (home : String) (fs : FS)
    (port : Nat) (targetId : String) (agentId : Option String) : Option α :=
  match fs (refCachePath home port targetId agentId) with
  | none => none
  | some s => dec s

/-- `saveTabMap`: atomically write the serialized tab map for a port. -/
def saveTabMap {α : Type} (enc : α → String) (home : String) (fs : FS)
    (port : Nat) (map : α) (agentId : Option String) (hex : String) : FS :=
  atomicWriteFileSync fs (tabMapPath home port agentId) (enc map) hex

/-- `loadTabMap`: absent file gives `null`; parse failure gives `null`. -/
def loadTabMap {α : Type} (dec : String → Option α) (home : String) (fs : FS)
    (port : Nat) (agentId : Option String) : Option α :=
  match fs (tabMapPath home port agentId) with
  | none => none
  | some s => dec s

/-- A sequence of `saveRefs` calls for one key, each with its own document
and random temp suffix. -/
def putSeqRefs {α : Type} (enc : α → String) (home : String) (port : Nat)
    (tid : String) (a : Option String) (fs : FS) (ds : List (α × String)) : FS :=
  ds.foldl (fun f dh => saveRefs enc home f port tid dh.1 a dh.2) fs

/-- A sequence of `saveTabMap` calls for one key. -/
def putSeqTab {α : Type} (enc : α → String) (home : String) (port : Nat)
    (a : Option String) (fs : FS) (ds : List (α × String)) : FS :=
  ds.foldl (fun f dh => saveTabMap enc home f port dh.1 a dh.2) fs

/-- A string containing no path separator. -/
abbrev noSlash (s : String) : Prop := ('/') ∉ s.data

/-- The partition an agent-id argument selects: absent and empty string both
select the unlabeled partition. -/
def normLabel (a : Option String) : Option String :=
  match a with
  | none => none
  | some s => if s = "" then none else some s

abbrev optNoSlash (a : Option String) : Prop := ∀ s, a = some s → noSlash s

/-- A plain path component: nonempty, separator-free, and not one of the
special components `.` and `..` that `path.join` normalizes away. -/
abbrev plainSeg (s : String) : Prop :=
  s.data ≠ [] ∧ ('/') ∉ s.data ∧ s.data ≠ ['.'] ∧ s.data ≠ ['.', '.']

/-- Every label the argument actually selects (absent and empty select the
unlabeled partition) is a plain path component. -/
abbrev optPlain (a : Option String) : Prop :=
  ∀ s, normLabel a = some s → plainSeg s

/-- A `homedir()`-shaped path: absolute and already normalized — after the
leading separator, every component is plain. -/
abbrev cleanAbs (p : String) : Prop :=
  isAbs p = true
  ∧ ∀ s ∈ (splitOn '/' p.data).tail,
      s ≠ [] ∧ ('/') ∉ s ∧ s ≠ ['.'] ∧ s ≠ ['.', '.']

/-- The file-name part of a ref cache path, as a character list. -/
def refsFile (p : Nat) (t : String) : List Char :=
  (Nat.repr p).data ++ ('-') :: ((t.take 8).data ++ ".refs.json".data)

/-- The file-name part of a tab map path, as a character list. -/
def tabsFile (p : Nat) : List Char :=
  (Nat.repr p).data ++ "-tabs.json".data

/-- The last `n` characters of a character list. -/
def lastN (n : Nat) (l : List Char) : List Char := (l.reverse.take n).reverse

/-! ### Cross-process interleaving of concurrent puts (claim C1) -/


/-- State of the cross-process interleaving: the shared filesystem plus each
writer's program counter (0 = not started, 1 = temp file written,
2 = renamed onto the key). -/
structure CState where
  fs : FS
  pc : Nat → Nat

/-- One scheduler step: run the next instruction of writer `i`.  A `put`
(`atomicWriteFileSync`) is two instructions: (a) write the full serialized
document to the writer's own temp file; (b) atomically rename the temp file
onto the key.  `key` is the target path, `docs i` writer `i`'s serialized
document, `hexes i` its random temp-name suffix. -/
def wstep (key : String) (docs hexes : Nat → String) (s : CState) (i : Nat) :
    CState :=
  if s.pc i = 0 then
    { fs := fsUpdate s.fs (tmpName key (hexes i)) (some (docs i)),
      pc := fun j => if j = i then 1 else s.pc j }
  else if s.pc i = 1 then
    { fs := fsUpdate (fsUpdate s.fs key (s.fs (tmpName key (hexes i))))
              (tmpName key (hexes i)) none,
      pc := fun j => if j = i then 2 else s.pc j }
  else s

/-- Run a whole schedule (a list of writer ids; each occurrence runs that
writer's next instruction). -/
def wrun (key : String) (docs hexes : Nat → String) (sched : List Nat)
    (s : CState) : CState :=
  sched.foldl (wstep key docs hexes) s

/-- Invariant of the interleaving: program counters are bounded; a writer
that has written its temp file but not yet renamed sees its own document
there; a finished writer's temp file is gone; the key either still holds its
initial content (no rename yet) or holds the complete document of some
finished writer. -/
def WInv (key : String) (docs hexes : Nat → String) (n : Nat) (fs0 : FS)
    (s : CState) : Prop :=
  (∀ i, i < n → s.pc i ≤ 2) ∧
  (∀ i, i < n → s.pc i = 1 → s.fs (tmpName key (hexes i)) = some (docs i)) ∧
  (∀ i, i < n → s.pc i = 2 → s.fs (tmpName key (hexes i)) = none) ∧
  ((s.fs key = fs0 key ∧ ∀ i, i < n → s.pc i ≠ 2) ∨
    (∃ j, j < n ∧ s.pc j = 2 ∧ s.fs key = some (docs j)))

/-! ### Tab identity map model (src/tabs.js) -/


/-- A raw browser target as returned by the external collaborator. -/
structure Target where
  id : String
  title : String
  url : String
deriving DecidableEq

/-- One tab entry returned by `getTabs`. -/
structure Tab where
  shortId : String
  targetId : String
  title : String
  url : String
deriving DecidableEq

/-- JS `String.prototype.startsWith`, at the character level. -/
def jsStartsWith (s pre : String) : Bool := pre.data.isPrefixOf s.data

/-- JS-object read: the value stored at a key (keys are unique in a JS
object, so the first match is the match). -/
def objGet : List (String × String) → String → Option String
  | [], _ => none
  | e :: m, k => if e.1 = k then some e.2 else objGet m k

/-- Whether a JS object has a key. -/
def objHas : List (String × String) → String → Bool
  | [], _ => false
  | e :: m, k => e.1 = k || objHas m k

/-- Overwrite the value at every entry carrying the key. -/
def objUpd : List (String × String) → String → String → List (String × String)
  | [], _, _ => []
  | e :: m, k, v => if e.1 = k then (k, v) :: objUpd m k v else e :: objUpd m k v

/-- JS-object write: assignment overwrites an existing key in place,
otherwise appends a new entry (insertion order preserved). -/
def objSet (m : List (String × String)) (k v : String) : List (String × String) :=
  if objHas m k then objUpd m k v else m ++ [(k, v)]

/-- The reverse map `targetId → shortId` built from the old tab map: for
each entry whose key starts with "t", assign `targetToShort[value] = key`
(later entries overwrite earlier ones). -/
def revMap (m : List (String × String)) : List (String × String) :=
  m.foldl (fun acc kv =>
    if jsStartsWith kv.1 "t" then objSet acc kv.2 kv.1 else acc) []

/-- `k.match(/^t(\d+)$/)` with its capture parsed by `parseInt(-, 10)`. -/
def parseTNum (k : String) : Option Nat :=
  match k.data with
  | [] => none
  | c :: rest =>
    if c = 't' ∧ rest ≠ [] ∧ rest.all (fun d => d.isDigit) = true then
      some (digitsVal rest)
    else none

/-- `nextNum`: one more than the highest numeric `t`-suffix among the old
map's keys, and at least 1. -/
def nextNumOf (m : List (String × String)) : Nat :=
  m.foldl (fun acc kv =>
    match parseTNum kv.1 with
    | some v => max acc (v + 1)
    | none => acc) 1

/-- The reconciliation loop of `getTabs`: for each raw target in order,
reuse the old short id when the reverse map knows the target id, else
assign `t<nextNum>` and bump the counter; record the assignment in the new
map and in the output list. -/
def tabsLoop (rev : List (String × String)) :
    List Target → Nat → List (String × String) → List Tab →
      List Tab × List (String × String) × Nat
  | [], nn, nm, tabs => (tabs, nm, nn)
  | tg :: rest, nn, nm, tabs =>
    match objGet rev tg.id with
    | some s =>
      tabsLoop rev rest nn (objSet nm s tg.id)
        (tabs ++ [{ shortId := s, targetId := tg.id,
                    title := tg.title, url := tg.url }])
    | none =>
      tabsLoop rev rest (nn + 1) (objSet nm ("t" ++ Nat.repr nn) tg.id)
        (tabs ++ [{ shortId := "t" ++ Nat.repr nn, targetId := tg.id,
                    title := tg.title, url := tg.url }])

/-- JS truthiness of an optional string value. -/
def truthy (o : Option String) : Bool :=
  match o with
  | none => false
  | some v => !(v == "")

/-- The `__last` carry-over of `getTabs`: keep the old most-recently-used
marker if it still refers to a key of the new map. -/
def carryLast (oldMap nm : List (String × String)) : List (String × String) :=
  match objGet oldMap "__last" with
  | some l =>
    if l ≠ "" ∧ truthy (objGet nm l) = true then objSet nm "__last" l else nm
  | none => nm

/-- `getTabs` minus the external target fetch and the persistence call:
reconcile the raw target list against the previously persisted map,
returning the tab list and the new map. -/
def getTabsPure (targets : List Target) (oldMap : List (String × String)) :
    List Tab × List (String × String) :=
  let r := tabsLoop (revMap oldMap) targets (nextNumOf oldMap) [] []
  (r.1, carryLast oldMap r.2.1)

/-! ### Snapshot renderer model (src/snapshot.js) -/


/-- Data-level model of JS `String.prototype.trim`: strip leading and
trailing whitespace characters. -/
def jsTrim (s : String) : String :=
  ⟨((s.data.dropWhile Char.isWhitespace).reverse.dropWhile
      Char.isWhitespace).reverse⟩

/-- A scalar property value of a CDP accessibility node
(the nested `prop.value.value`). -/
inductive PVal where
  | s (v : String)
  | b (v : Bool)
  | i (v : Int)
deriving DecidableEq

structure AXProperty where
  name : String
  value : PVal
deriving DecidableEq

/-- A built tree node (the output of `buildTree`): normalized role, the raw
CDP role, name, value, the backend DOM node id, properties, children. -/
inductive AXNode where
  | mk (role rawRole name value : String) (backendDOMNodeId : Nat)
       (properties : List AXProperty) (children : List AXNode)

def AXNode.role : AXNode → String
  | .mk r _ _ _ _ _ _ => r

def AXNode.rawRole : AXNode → String
  | .mk _ rr _ _ _ _ _ => rr

def AXNode.name : AXNode → String
  | .mk _ _ n _ _ _ _ => n

def AXNode.value : AXNode → String
  | .mk _ _ _ v _ _ _ => v

def AXNode.backendDOMNodeId : AXNode → Nat
  | .mk _ _ _ _ b _ _ => b

def AXNode.properties : AXNode → List AXProperty
  | .mk _ _ _ _ _ ps _ => ps

def AXNode.children : AXNode → List AXNode
  | .mk _ _ _ _ _ _ cs => cs

/-- Roles that are interactive and should get refs. -/
def INTERACTIVE_ROLES : List String :=
  ["button", "link", "textbox", "checkbox", "radio", "combobox", "listbox",
   "menuitem", "menuitemcheckbox", "menuitemradio", "option", "searchbox",
   "slider", "spinbutton", "switch", "tab", "treeitem"]

/-- Roles that provide structure/context (get refs for text extraction). -/
def CONTENT_ROLES : List String :=
  ["heading", "cell", "gridcell", "columnheader", "rowheader",
   "listitem", "article", "region", "main", "navigation"]

/-- Roles that are purely structural (can be filtered in compact mode). -/
def STRUCTURAL_ROLES : List String :=
  ["generic", "group", "list", "table", "row", "rowgroup", "grid",
   "treegrid", "menu", "menubar", "toolbar", "tablist", "tree",
   "directory", "document", "application", "presentation", "none",
   "Section", "LabelText", "section", "label"]

/-- Raw roles to always skip. -/
def SKIP_ROLES : List String :=
  ["InlineTextBox", "LineBreak", "RootWebArea", "listMarker"]

def isInteractiveRole (r : String) : Bool := INTERACTIVE_ROLES.contains r

def isContentRole (r : String) : Bool := CONTENT_ROLES.contains r

/-- `STRUCTURAL_ROLES.has(role) || role === 'section' || role === 'label'`. -/
def isStructuralRole (r : String) : Bool :=
  STRUCTURAL_ROLES.contains r || r == "section" || r == "label"

/-- `getProp`: the value of a named property, when present. -/
def getProp (node : AXNode) (n : String) : Option PVal :=
  (node.properties.find? (fun p => p.name == n)).map (fun p => p.value)

/-- JS string interpolation of a scalar property value. -/
def PVal.render : PVal → String
  | .s v => v
  | .b v => if v then "true" else "false"
  | .i v => if v < 0 then "-" ++ Nat.repr (-v).toNat else Nat.repr v.toNat

/-- The `x === 'true' || x === true` test used by `getExtraInfo`. -/
def pvIsTrue (v : PVal) : Bool :=
  match v with
  | .s s => s == "true"
  | .b b => b
  | .i _ => false

/-- `getExtraInfo`: bracketed state annotations derived from the property
map (level, checked, selected, expanded, required, disabled). -/
def getExtraInfo (node : AXNode) : String :=
  let parts : List String := []
  let parts := match getProp node "level" with
    | some v => parts ++ ["[level=" ++ v.render ++ "]"]
    | none => parts
  let parts := match getProp node "checked" with
    | some v => parts ++ [if pvIsTrue v then "[checked]" else "[unchecked]"]
    | none => parts
  let parts := match getProp node "selected" with
    | some v => if pvIsTrue v then parts ++ ["[selected]"] else parts
    | none => parts
  let parts := match getProp node "expanded" with
    | some v => parts ++ [if pvIsTrue v then "[expanded]" else "[collapsed]"]
    | none => parts
  let parts := match getProp node "required" with
    | some v => if pvIsTrue v then parts ++ ["[required]"] else parts
    | none => parts
  let parts := match getProp node "disabled" with
    | some v => if pvIsTrue v then parts ++ ["[disabled]"] else parts
    | none => parts
  String.intercalate " " parts

/-- The rendering policy: the three public knobs plus the internal
`_parentName` context used for duplicate-text suppression. -/
structure RenderOpts where
  interactive : Bool
  compact : Bool
  maxDepth : Option Nat
  parentName : Option String
deriving DecidableEq

/-- Renderer state: the ref map being populated (insertion order) and the
ref counter. -/
structure RState where
  refs : List (String × RefEntry)
  n : Nat
deriving DecidableEq

/-- `'  '.repeat(depth)`. -/
def sIndent (d : Nat) : String := String.join (List.replicate d "  ")

/-- `opts.maxDepth !== undefined && depth > opts.maxDepth`. -/
def depthExceeded (opts : RenderOpts) (depth : Nat) : Bool :=
  match opts.maxDepth with
  | some d => depth > d
  | none => false

mutual

/-- `hasMeaningfulContent`: interactive role, named content role, non-blank
text, or any such descendant. -/
def hasMeaningfulContent (node : AXNode) : Bool :=
  match node with
  | .mk role _ name _ _ _ children =>
    isInteractiveRole role
    || (isContentRole role && !(name == ""))
    || (role == "text" && !(jsTrim name == ""))
    || hasMeaningfulContentList children

def hasMeaningfulContentList (ns : List AXNode) : Bool :=
  match ns with
  | [] => false
  | c :: rest => hasMeaningfulContent c || hasMeaningfulContentList rest

end

mutual

/-- `renderNode`: render a tree node to output lines, threading the mutated
`refs` object and `counter` as explicit state.  Every branch mirrors the
source; `renderChildren` is the loop/flatMap over children, with `skipText`
standing for the `child.role !== 'text'` filter of the value-bearing
interactive branch. -/
def renderNode (node : AXNode) (opts : RenderOpts) (depth : Nat)
    (st : RState) : List String × RState :=
  match node with
  | .mk role rawRole name value backendId props children =>
    if SKIP_ROLES.contains rawRole then
      if rawRole == "RootWebArea" then
        renderChildren children false opts depth st
      else ([], st)
    else if depthExceeded opts depth then ([], st)
    else if opts.interactive then
      if isInteractiveRole role then
        let ref := "e" ++ Nat.repr (st.n + 1)
        let st2 : RState :=
          ⟨st.refs ++ [(ref, ⟨backendId, role, name⟩)], st.n + 1⟩
        let namePart := if name == "" then "" else " \"" ++ name ++ "\""
        let extra := getExtraInfo (AXNode.mk role rawRole name value backendId props children)
        let line0 := sIndent depth ++ "- " ++ role ++ namePart ++ " [ref=" ++ ref ++ "]"
        let line1 := if extra == "" then line0 else line0 ++ " " ++ extra
        let line2 := if value == "" then line1 else line1 ++ ": " ++ value
        ([line2], st2)
      else renderChildren children false opts 0 st
    else if opts.compact && (isStructuralRole role || role == "none")
        && name == "" then
      if hasMeaningfulContent (AXNode.mk role rawRole name value backendId props children) then
        renderChildren children false opts depth st
      else ([], st)
    else if role == "text" then
      let text := jsTrim name
      if text == "" then ([], st)
      else if opts.compact && (match opts.parentName with
          | some pn => !(pn == "") && text == jsTrim pn
          | none => false) then ([], st)
      else ([sIndent depth ++ "- text: " ++ text], st)
    else
      let shouldHaveRef := isInteractiveRole role || (isContentRole role && !(name == ""))
      let rp : String × RState :=
        if shouldHaveRef then
          let ref := "e" ++ Nat.repr (st.n + 1)
          (" [ref=" ++ ref ++ "]",
            ⟨st.refs ++ [(ref, ⟨backendId, role, name⟩)], st.n + 1⟩)
        else ("", st)
      let namePart := if name == "" then "" else " \"" ++ name ++ "\""
      let extra := getExtraInfo (AXNode.mk role rawRole name value backendId props children)
      let extraStr := if extra == "" then "" else " " ++ extra
      let childTexts := children.filter
        (fun c => c.role == "text" && !(jsTrim c.name == ""))
      let otherChildren := children.filter
        (fun c => !(c.role == "text") || jsTrim c.name == "")
      if otherChildren.isEmpty && !childTexts.isEmpty && !(isInteractiveRole role) then
        let text := String.intercalate " " (childTexts.map (fun c => jsTrim c.name))
        ([sIndent depth ++ "- " ++ role ++ namePart ++ rp.1 ++ extraStr ++ ": " ++ text],
          rp.2)
      else if !(value == "") && isInteractiveRole role then
        let line := sIndent depth ++ "- " ++ role ++ namePart ++ rp.1 ++ extraStr ++ ": " ++ value
        let childOpts := if opts.compact && !(name == "") then
            { opts with parentName := some name } else opts
        let r := renderChildren children true childOpts (depth + 1) rp.2
        (line :: r.1, r.2)
      else
        let line := sIndent depth ++ "- " ++ role ++ namePart ++ rp.1 ++ extraStr
        let childOpts := if opts.compact && !(name == "") then
            { opts with parentName := some name } else opts
        let r := renderChildren children false childOpts (depth + 1) rp.2
        (line :: r.1, r.2)

def renderChildren (ns : List AXNode) (skipText : Bool) (opts : RenderOpts)
    (depth : Nat) (st : RState) : List String × RState :=
  match ns with
  | [] => ([], st)
  | c :: rest =>
    let p := if skipText && c.role == "text" then ([], st)
             else renderNode c opts depth st
    let q := renderChildren rest skipText opts depth p.2
    (p.1 ++ q.1, q.2)

end

/-- The renderer entry point of `getSnapshot`: render the root at depth 0
with a fresh ref map and counter 0 (the caller-facing policy knobs carry no
`_parentName`). -/
def snapshotRender (root : AXNode) (interactive compact : Bool)
    (maxDepth : Option Nat) : List String × RState :=
  renderNode root ⟨interactive, compact, maxDepth, none⟩ 0 ⟨[], 0⟩

/-- Ref id with numeric suffix `k`. -/
def eId (k : Nat) : String := "e" ++ Nat.repr k

mutual

/-- The maximal interactive nodes in visitation order: the control-flow
skeleton of `renderNode` in interactiveOnly mode (non-root skip subtrees
dropped, the root wrapper descended into, descent stopping at the first
interactive node on each path). -/
def topInteractive (node : AXNode) : List AXNode :=
  match node with
  | .mk role rawRole name value backendId props children =>
    if SKIP_ROLES.contains rawRole then
      if rawRole == "RootWebArea" then topInteractiveList children else []
    else if isInteractiveRole role then
      [AXNode.mk role rawRole name value backendId props children]
    else topInteractiveList children

def topInteractiveList (ns : List AXNode) : List AXNode :=
  match ns with
  | [] => []
  | c :: rest => topInteractive c ++ topInteractiveList rest

end

/-- The single output line of an interactive node carrying ref `ref`, as
built by the interactiveOnly branch of `renderNode` (depth 0). -/
def interactiveLine (node : AXNode) (ref : String) : String :=
  let namePart := if node.name == "" then "" else " \"" ++ node.name ++ "\""
  let extra := getExtraInfo node
  let line0 := sIndent 0 ++ "- " ++ node.role ++ namePart ++ " [ref=" ++ ref ++ "]"
  let line1 := if extra == "" then line0 else line0 ++ " " ++ extra
  if node.value == "" then line1 else line1 ++ ": " ++ node.value

/-- One output line per listed node, refs numbered consecutively from
`k + 1`. -/
def ilines (ms : List AXNode) (k : Nat) : List String :=
  match ms with
  | [] => []
  | m :: rest => interactiveLine m (eId (k + 1)) :: ilines rest (k + 1)

/-- One ref entry per listed node, numbered consecutively from `k + 1`. -/
def irefs (ms : List AXNode) (k : Nat) : List (String × RefEntry) :=
  match ms with
  | [] => []
  | m :: rest =>
    (eId (k + 1), ⟨m.backendDOMNodeId, m.role, m.name⟩) :: irefs rest (k + 1)

mutual

/-- Number of interactive-role nodes in a tree. -/
def countInteractive (node : AXNode) : Nat :=
  match node with
  | .mk role _ _ _ _ _ children =>
    (if isInteractiveRole role then 1 else 0) + countInteractiveList children

def countInteractiveList (ns : List AXNode) : Nat :=
  match ns with
  | [] => 0
  | c :: rest => countInteractive c + countInteractiveList rest

end

mutual

/-- No node of the tree carries a raw role from the skip set. -/
def noSkipSubtree (node : AXNode) : Bool :=
  match node with
  | .mk _ rawRole _ _ _ _ children =>
    !(SKIP_ROLES.contains rawRole) && noSkipList children

def noSkipList (ns : List AXNode) : Bool :=
  match ns with
  | [] => true
  | c :: rest => noSkipSubtree c && noSkipList rest

end

mutual

/-- Text nodes are leaves (as produced by the tree builder, whose text
nodes only ever had inline-text children, which it drops). -/
def textLeaves (node : AXNode) : Bool :=
  match node with
  | .mk role _ _ _ _ _ children =>
    (!(role == "text") || children.isEmpty) && textLeavesList children

def textLeavesList (ns : List AXNode) : Bool :=
  match ns with
  | [] => true
  | c :: rest => textLeaves c && textLeavesList rest

end

/-! ### Ref resolution (src/actions.js) -/


/-- The message thrown when no snapshot has ever been cached. -/
def noSnapshotMsg : String :=
  "No snapshot taken yet. Run `agent-chrome snapshot` first to get element refs."

/-- The `Ref "<arg>" not found` message, listing the first ten available
ref keys. -/
def refNotFoundMsg (refArg : String) (keys : List String) : String :=
  "Ref \"" ++ refArg ++ "\" not found. Available refs: "
    ++ String.intercalate ", " (keys.take 10)
    ++ (if keys.length > 10 then "..." else "")
    ++ ". Run `agent-chrome snapshot` to refresh."

/-- `resolveRef` acting on a loaded ref table: strip one leading `@`, then
one leading `ref=`, then look the key up; a miss throws the ref-not-found
message built from the original argument and the table's keys. -/
def resolveRefTable (refs : List (String × RefEntry)) (refArg : String) :
    Except String RefEntry :=
  let k1 := if jsStartsWith refArg "@" then refArg.drop 1 else refArg
  let k2 := if jsStartsWith k1 "ref=" then k1.drop 4 else k1
  match (refs.find? (fun kv => kv.1 == k2)).map (fun kv => kv.2) with
  | some d => Except.ok d
  | none => Except.error (refNotFoundMsg refArg (refs.map (fun kv => kv.1)))

/-- `resolveRef` including the cache load: an absent (or unparseable) cached
table throws the no-snapshot message. -/
def resolveRef (dec : String → Option (List (String × RefEntry)))
    (home : String) (fs : FS) (port : Nat) (targetId : String)
    (refArg : String) (agentId : Option String) : Except String RefEntry :=
  match loadRefs dec home fs port targetId agentId with
  | none => Except.error noSnapshotMsg
  | some refs => resolveRefTable refs refArg

/-- The all-absent filesystem. -/
def fsEmpty : FS := fun _ => none

/-- The targetId values among `t`-prefixed entries of a map. -/
def tVals (m : List (String × String)) : List String :=
  (m.filter (fun kv => jsStartsWith kv.1 "t")).map (fun kv => kv.2)

/-! ### Facts about the decimal representation `Nat.repr` -/


/-- Accumulator lemma for `Nat.toDigitsCore`: the accumulator is a suffix. -/
theorem toDigitsCore_acc (b : Nat) :
    ∀ (fuel n : Nat) (ds : List Char),
      Nat.toDigitsCore b fuel n ds = Nat.toDigitsCore b fuel n [] ++ ds := by
  intro fuel
  induction fuel with
  | zero => intro n ds; simp [Nat.toDigitsCore]
  | succ f ih =>
    intro n ds
    simp only [Nat.toDigitsCore]
    by_cases h : n / b = 0
    · simp [h]
    · rw [if_neg h, if_neg h, ih (n / b) (Nat.digitChar (n % b) :: ds),
        ih (n / b) [Nat.digitChar (n % b)]]
      simp

/-- Each digit character produced for a remainder below ten is a digit. -/
theorem digitChar_isDigit {m : Nat} (h : m < 10) :
    (Nat.digitChar m).isDigit = true := by
  interval_cases m <;> decide

/-- All characters produced by `Nat.toDigitsCore` in base ten are digits. -/
theorem toDigitsCore_digits :
    ∀ (fuel n : Nat), ∀ c ∈ Nat.toDigitsCore 10 fuel n [], c.isDigit = true := by
  intro fuel
  induction fuel with
  | zero => intro n c hc; simp [Nat.toDigitsCore] at hc
  | succ f ih =>
    intro n c hc
    simp only [Nat.toDigitsCore] at hc
    by_cases h : n / 10 = 0
    · rw [if_pos h] at hc
      rcases List.mem_singleton.1 hc with rfl
      exact digitChar_isDigit (Nat.mod_lt _ (by decide))
    · rw [if_neg h, toDigitsCore_acc] at hc
      rcases List.mem_append.1 hc with h1 | h1
      · exact ih _ _ h1
      · rcases List.mem_singleton.1 h1 with rfl
        exact digitChar_isDigit (Nat.mod_lt _ (by decide))

theorem digitChar_toNat {n : Nat} (h : n < 10) :
    (Nat.digitChar n).toNat - 48 = n := by
  interval_cases n <;> decide

theorem toDigitsCore_val :
    ∀ (fuel n : Nat), n < fuel → ∀ (a : Nat),
      (Nat.toDigitsCore 10 fuel n []).foldl (fun a c => 10 * a + (c.toNat - 48)) a
        = a * 10 ^ (Nat.toDigitsCore 10 fuel n []).length + n := by
  intro fuel
  induction fuel with
  | zero => intro n h; omega
  | succ f ih =>
    intro n h a
    simp only [Nat.toDigitsCore]
    by_cases hd : n / 10 = 0
    · rw [if_pos hd]
      have h10 : n < 10 := by omega
      have hmod : n % 10 = n := Nat.mod_eq_of_lt h10
      simp only [List.foldl, List.length_singleton, pow_one, hmod, digitChar_toNat h10]
      omega
    · rw [if_neg hd, toDigitsCore_acc]
      have hn0 : 0 < n := by
        rcases Nat.eq_zero_or_pos n with rfl | h1
        · simp at hd
        · exact h1
      have hlt : n / 10 < f := by
        have := Nat.div_lt_self hn0 (by decide : 1 < 10)
        omega
      rw [List.foldl_append, ih (n / 10) hlt a]
      simp only [List.foldl, List.length_append, List.length_singleton]
      rw [digitChar_toNat (by omega : n % 10 < 10)]
      have : a * 10 ^ ((Nat.toDigitsCore 10 f (n / 10) []).length + 1)
          = (a * 10 ^ (Nat.toDigitsCore 10 f (n / 10) []).length) * 10 := by
        ring
      rw [this]
      omega

theorem repr_data (n : Nat) :
    (Nat.repr n).data = Nat.toDigitsCore 10 (n + 1) n [] := rfl

/-- The decimal digit string of `n` evaluates back to `n`. -/
theorem digitsVal_repr (n : Nat) : digitsVal (Nat.repr n).data = n := by
  have := toDigitsCore_val (n + 1) n (Nat.lt_succ_self n) 0
  simpa [digitsVal, repr_data] using this

/-- `Nat.repr` is injective. -/
theorem repr_injective : Function.Injective Nat.repr := by
  intro m n h
  have : digitsVal (Nat.repr m).data = digitsVal (Nat.repr n).data := by rw [h]
  rwa [digitsVal_repr, digitsVal_repr] at this

/-- Every character of `Nat.repr n` is a decimal digit. -/
theorem repr_isDigit (n : Nat) : ∀ c ∈ (Nat.repr n).data, c.isDigit = true := by
  rw [repr_data]
  exact toDigitsCore_digits (n + 1) n

theorem repr_ne_nil (n : Nat) : (Nat.repr n).data ≠ [] := by
  rw [repr_data]
  simp only [Nat.toDigitsCore]
  by_cases h : n / 10 = 0
  · simp [h]
  · rw [if_neg h, toDigitsCore_acc]
    simp

theorem dash_not_mem_repr (n : Nat) : ('-') ∉ (Nat.repr n).data := by
  intro h
  have := repr_isDigit n _ h
  simp at this

theorem slash_not_mem_repr (n : Nat) : ('/') ∉ (Nat.repr n).data := by
  intro h
  have := repr_isDigit n _ h
  simp at this

/-! ### Generic list splitting lemmas -/


/-- Splitting at the first occurrence of a separator character is unique. -/
theorem sep_split {c : Char} :
    ∀ (u1 : List Char) (u2 v1 v2 : List Char),
      u1 ++ c :: v1 = u2 ++ c :: v2 → c ∉ u1 → c ∉ u2 → u1 = u2 ∧ v1 = v2 := by
  intro u1
  induction u1 with
  | nil =>
    intro u2 v1 v2 h h1 h2
    cases u2 with
    | nil => simpa using h
    | cons x xs =>
      simp only [List.nil_append, List.cons_append, List.cons.injEq] at h
      have : c ∈ x :: xs := by rw [← h.1]; exact List.mem_cons_self c xs
      exact absurd this h2
  | cons x xs ih =>
    intro u2 v1 v2 h h1 h2
    cases u2 with
    | nil =>
      simp only [List.cons_append, List.nil_append, List.cons.injEq] at h
      have : c ∈ x :: xs := by rw [h.1]; exact List.mem_cons_self c xs
      exact absurd this h1
    | cons y ys =>
      simp only [List.cons_append, List.cons.injEq] at h
      have := ih ys v1 v2 h.2 (fun hm => h1 (List.mem_cons_of_mem _ hm))
        (fun hm => h2 (List.mem_cons_of_mem _ hm))
      exact ⟨by rw [h.1, this.1], this.2⟩

/-- Lists with different suffixes of equal length are different. -/
theorem append_ne_of_suffix_ne {t1 t2 : List Char} (hlen : t1.length = t2.length)
    (hne : t1 ≠ t2) (l1 l2 : List Char) : l1 ++ t1 ≠ l2 ++ t2 := by
  intro h
  exact hne (List.append_inj' h hlen).2

theorem refCachePathFlat_data (home : String) (p : Nat) (t : String) (a : Option String) :
    (refCachePathFlat home p t a).data
      = (home ++ "/" ++ ".agent-chrome").data
        ++ (match normLabel a with
            | none => ('/') :: refsFile p t
            | some l => ('/') :: (l.data ++ ('/') :: refsFile p t)) := by
  cases a with
  | none =>
    simp [refCachePathFlat, getCacheDirFlat, normLabel, refsFile, List.append_assoc]
  | some s =>
    by_cases hs : s = ""
    · simp [refCachePathFlat, getCacheDirFlat, normLabel, hs, refsFile, List.append_assoc]
    · simp [refCachePathFlat, getCacheDirFlat, normLabel, hs, refsFile, List.append_assoc]

theorem tabMapPathFlat_data (home : String) (p : Nat) (a : Option String) :
    (tabMapPathFlat home p a).data
      = (home ++ "/" ++ ".agent-chrome").data
        ++ (match normLabel a with
            | none => ('/') :: tabsFile p
            | some l => ('/') :: (l.data ++ ('/') :: tabsFile p)) := by
  cases a with
  | none =>
    simp [tabMapPathFlat, getCacheDirFlat, normLabel, tabsFile, List.append_assoc]
  | some s =>
    by_cases hs : s = ""
    · simp [tabMapPathFlat, getCacheDirFlat, normLabel, hs, tabsFile, List.append_assoc]
    · simp [tabMapPathFlat, getCacheDirFlat, normLabel, hs, tabsFile, List.append_assoc]

theorem refsFile_noSlash {p : Nat} {t : String} (h : noSlash (t.take 8)) :
    ('/') ∉ refsFile p t := by
  intro hm
  simp only [refsFile] at hm
  rcases List.mem_append.1 hm with h1 | h1
  · exact slash_not_mem_repr p h1
  · rcases List.mem_cons.1 h1 with h2 | h2
    · exact absurd h2 (by decide)
    · rcases List.mem_append.1 h2 with h3 | h3
      · exact h h3
      · revert h3; decide

theorem tabsFile_noSlash (p : Nat) : ('/') ∉ tabsFile p := by
  intro hm
  rcases List.mem_append.1 hm with h1 | h1
  · exact slash_not_mem_repr p h1
  · revert h1; decide

theorem refsFile_inj {p1 p2 : Nat} {t1 t2 : String}
    (h : refsFile p1 t1 = refsFile p2 t2) : p1 = p2 ∧ t1.take 8 = t2.take 8 := by
  have hsplit := sep_split _ _ _ _ h (dash_not_mem_repr p1) (dash_not_mem_repr p2)
  have hp : p1 = p2 := repr_injective (String.ext hsplit.1)
  have ht := (List.append_inj' hsplit.2 rfl).1
  exact ⟨hp, String.ext ht⟩

theorem tabsFile_inj {p1 p2 : Nat} (h : tabsFile p1 = tabsFile p2) : p1 = p2 :=
  repr_injective (String.ext (List.append_inj' h rfl).1)

/-- Distinct normalized labels, or distinct ports, or distinct 8-char target
prefixes give distinct ref cache paths (given slash-free labels and target
prefixes). -/
theorem refCachePathFlat_inj (home : String) {p1 p2 : Nat} {t1 t2 : String}
    {a1 a2 : Option String}
    (hs1 : noSlash (t1.take 8)) (hs2 : noSlash (t2.take 8))
    (ha1 : optNoSlash a1) (ha2 : optNoSlash a2)
    (h : refCachePathFlat home p1 t1 a1 = refCachePathFlat home p2 t2 a2) :
    normLabel a1 = normLabel a2 ∧ p1 = p2 ∧ t1.take 8 = t2.take 8 := by
  have hd := congrArg String.data h
  rw [refCachePathFlat_data, refCachePathFlat_data] at hd
  have hd2 := List.append_cancel_left hd
  rcases hn1 : normLabel a1 with _ | l1 <;> rcases hn2 : normLabel a2 with _ | l2 <;>
    rw [hn1, hn2] at hd2
  · simp only [List.cons.injEq, true_and] at hd2
    exact ⟨rfl, refsFile_inj hd2⟩
  · exfalso
    simp only [List.cons.injEq, true_and] at hd2
    have : ('/') ∈ refsFile p1 t1 := by
      rw [hd2]
      exact List.mem_append.2 (Or.inr (List.mem_cons_self _ _))
    exact refsFile_noSlash hs1 this
  · exfalso
    simp only [List.cons.injEq, true_and] at hd2
    have : ('/') ∈ refsFile p2 t2 := by
      rw [← hd2]
      exact List.mem_append.2 (Or.inr (List.mem_cons_self _ _))
    exact refsFile_noSlash hs2 this
  · simp only [List.cons.injEq, true_and] at hd2
    have hl1 : noSlash l1 := by
      cases a1 with
      | none => simp [normLabel] at hn1
      | some s =>
        by_cases hse : s = "" <;> simp [normLabel, hse] at hn1
        exact hn1 ▸ ha1 s rfl
    have hl2 : noSlash l2 := by
      cases a2 with
      | none => simp [normLabel] at hn2
      | some s =>
        by_cases hse : s = "" <;> simp [normLabel, hse] at hn2
        exact hn2 ▸ ha2 s rfl
    have hsplit := sep_split _ _ _ _ hd2 hl1 hl2
    exact ⟨by rw [String.ext hsplit.1], refsFile_inj hsplit.2⟩

/-- Distinct normalized labels or distinct ports give distinct tab map
paths (given slash-free labels). -/
theorem tabMapPathFlat_inj (home : String) {p1 p2 : Nat} {a1 a2 : Option String}
    (ha1 : optNoSlash a1) (ha2 : optNoSlash a2)
    (h : tabMapPathFlat home p1 a1 = tabMapPathFlat home p2 a2) :
    normLabel a1 = normLabel a2 ∧ p1 = p2 := by
  have hd := congrArg String.data h
  rw [tabMapPathFlat_data, tabMapPathFlat_data] at hd
  have hd2 := List.append_cancel_left hd
  rcases hn1 : normLabel a1 with _ | l1 <;> rcases hn2 : normLabel a2 with _ | l2 <;>
    rw [hn1, hn2] at hd2
  · simp only [List.cons.injEq, true_and] at hd2
    exact ⟨rfl, tabsFile_inj hd2⟩
  · exfalso
    simp only [List.cons.injEq, true_and] at hd2
    have : ('/') ∈ tabsFile p1 := by
      rw [hd2]
      exact List.mem_append.2 (Or.inr (List.mem_cons_self _ _))
    exact tabsFile_noSlash p1 this
  · exfalso
    simp only [List.cons.injEq, true_and] at hd2
    have : ('/') ∈ tabsFile p2 := by
      rw [← hd2]
      exact List.mem_append.2 (Or.inr (List.mem_cons_self _ _))
    exact tabsFile_noSlash p2 this
  · simp only [List.cons.injEq, true_and] at hd2
    have hl1 : noSlash l1 := by
      cases a1 with
      | none => simp [normLabel] at hn1
      | some s =>
        by_cases hse : s = "" <;> simp [normLabel, hse] at hn1
        exact hn1 ▸ ha1 s rfl
    have hl2 : noSlash l2 := by
      cases a2 with
      | none => simp [normLabel] at hn2
      | some s =>
        by_cases hse : s = "" <;> simp [normLabel, hse] at hn2
        exact hn2 ▸ ha2 s rfl
    have hsplit := sep_split _ _ _ _ hd2 hl1 hl2
    exact ⟨by rw [String.ext hsplit.1], tabsFile_inj hsplit.2⟩

theorem tmpName_data (f hex : String) :
    (tmpName f hex).data = ((f.data ++ ".".data) ++ hex.data) ++ ".tmp".data := rfl

/-- A temp file name is never the target file itself. -/
theorem tmpName_ne_self (f hex : String) : tmpName f hex ≠ f := by
  intro h
  have := congrArg (fun s => s.data.length) h
  simp [tmpName] at this

theorem refsFile_split_json (p : Nat) (t : String) :
    refsFile p t
      = ((Nat.repr p).data ++ ('-') :: ((t.take 8).data ++ ".refs.".data))
        ++ "json".data := by
  simp only [refsFile,
    show (".refs.json".data : List Char) = ".refs.".data ++ "json".data from rfl]
  simp [List.append_assoc]

theorem tabsFile_split_json (p : Nat) :
    tabsFile p = ((Nat.repr p).data ++ "-tabs.".data) ++ "json".data := by
  simp only [tabsFile,
    show ("-tabs.json".data : List Char) = "-tabs.".data ++ "json".data from rfl]
  simp [List.append_assoc]

theorem refsFile_split_refsjson (p : Nat) (t : String) :
    refsFile p t
      = ((Nat.repr p).data ++ ('-') :: (t.take 8).data) ++ ".refs.json".data := by
  simp [refsFile, List.append_assoc]

theorem lastN_append {t : List Char} {n : Nat} (h : t.length = n) (m : List Char) :
    lastN n (m ++ t) = t := by
  have : (t.reverse ++ m.reverse).take n = t.reverse := by
    rw [← h, ← List.length_reverse t]
    exact List.take_left _ _
  simp [lastN, List.reverse_append, this]

theorem lastN_refCachePathFlat (home : String) (p : Nat) (t : String)
    (a : Option String) :
    lastN 10 (refCachePathFlat home p t a).data = ".refs.json".data := by
  rw [refCachePathFlat_data, refsFile_split_refsjson]
  rcases normLabel a with _ | l
  · rw [show (home ++ "/" ++ ".agent-chrome").data
        ++ ('/') :: (((Nat.repr p).data ++ ('-') :: (t.take 8).data) ++ ".refs.json".data)
        = ((home ++ "/" ++ ".agent-chrome").data
            ++ ('/') :: ((Nat.repr p).data ++ ('-') :: (t.take 8).data))
          ++ ".refs.json".data by simp [List.append_assoc]]
    exact lastN_append (by decide) _
  · rw [show (home ++ "/" ++ ".agent-chrome").data
        ++ ('/') :: (l.data ++ ('/') :: (((Nat.repr p).data ++ ('-') :: (t.take 8).data)
          ++ ".refs.json".data))
        = ((home ++ "/" ++ ".agent-chrome").data
            ++ ('/') :: (l.data ++ ('/') :: ((Nat.repr p).data ++ ('-') :: (t.take 8).data)))
          ++ ".refs.json".data by simp [List.append_assoc]]
    exact lastN_append (by decide) _

theorem lastN_tabMapPathFlat (home : String) (p : Nat) (a : Option String) :
    lastN 10 (tabMapPathFlat home p a).data = "-tabs.json".data := by
  rw [tabMapPathFlat_data]
  rcases normLabel a with _ | l
  · rw [show (home ++ "/" ++ ".agent-chrome").data ++ ('/') :: tabsFile p
        = ((home ++ "/" ++ ".agent-chrome").data ++ ('/') :: (Nat.repr p).data)
          ++ "-tabs.json".data by simp [tabsFile, List.append_assoc]]
    exact lastN_append (by decide) _
  · rw [show (home ++ "/" ++ ".agent-chrome").data
        ++ ('/') :: (l.data ++ ('/') :: tabsFile p)
        = ((home ++ "/" ++ ".agent-chrome").data
            ++ ('/') :: (l.data ++ ('/') :: (Nat.repr p).data))
          ++ "-tabs.json".data by simp [tabsFile, List.append_assoc]]
    exact lastN_append (by decide) _

theorem lastN_tmpName (f hex : String) :
    lastN 4 (tmpName f hex).data = ".tmp".data := by
  rw [tmpName_data]
  exact lastN_append (by decide) _

theorem lastN_lastN (m n : Nat) (l : List Char) :
    lastN m (lastN n l) = lastN (min m n) l := by
  simp [lastN, List.reverse_reverse, List.take_take]

theorem lastN4_refCachePathFlat (home : String) (p : Nat) (t : String)
    (a : Option String) :
    lastN 4 (refCachePathFlat home p t a).data = "json".data := by
  have h := lastN_lastN 4 10 (refCachePathFlat home p t a).data
  rw [lastN_refCachePathFlat home p t a] at h
  have hmin : min 4 10 = 4 := by decide
  rw [hmin] at h
  rw [← h]
  decide

theorem lastN4_tabMapPathFlat (home : String) (p : Nat) (a : Option String) :
    lastN 4 (tabMapPathFlat home p a).data = "json".data := by
  have h := lastN_lastN 4 10 (tabMapPathFlat home p a).data
  rw [lastN_tabMapPathFlat home p a] at h
  have hmin : min 4 10 = 4 := by decide
  rw [hmin] at h
  rw [← h]
  decide

/-- A temp file name (ending in `.tmp`) is never a ref cache path
(ending in `.refs.json`). -/
theorem tmpName_ne_refCachePathFlat (f hex home : String) (p : Nat) (t : String)
    (a : Option String) : tmpName f hex ≠ refCachePathFlat home p t a := by
  intro h
  have h4 := congrArg (fun s => lastN 4 s.data) h
  simp only [lastN_tmpName, lastN4_refCachePathFlat] at h4
  exact absurd h4 (by decide)

/-- A temp file name (ending in `.tmp`) is never a tab map path. -/
theorem tmpName_ne_tabMapPathFlat (f hex home : String) (p : Nat)
    (a : Option String) : tmpName f hex ≠ tabMapPathFlat home p a := by
  intro h
  have h4 := congrArg (fun s => lastN 4 s.data) h
  simp only [lastN_tmpName, lastN4_tabMapPathFlat] at h4
  exact absurd h4 (by decide)

/-- A ref cache path (ending `.refs.json`) is never a tab map path
(ending `-tabs.json`). -/
theorem refCachePathFlat_ne_tabMapPathFlat (home : String) (p1 : Nat) (t : String)
    (a1 : Option String) (p2 : Nat) (a2 : Option String) :
    refCachePathFlat home p1 t a1 ≠ tabMapPathFlat home p2 a2 := by
  intro h
  have h10 := congrArg (fun s => lastN 10 s.data) h
  simp only [lastN_refCachePathFlat, lastN_tabMapPathFlat] at h10
  exact absurd h10 (by decide)

/-- Two temp names for the same target with distinct random suffixes differ. -/
theorem tmpName_inj {f h1 h2 : String} (h : tmpName f h1 = tmpName f h2) :
    h1 = h2 := by
  have hd := congrArg String.data h
  rw [tmpName_data, tmpName_data] at hd
  have := (List.append_inj' hd rfl).1
  exact String.ext (List.append_cancel_left this)

/-- Reading the target path right after an atomic write gives the new data. -/
theorem atomicWrite_at (fs : FS) (f data hex : String) :
    atomicWriteFileSync fs f data hex f = some data := by
  have h1 : ¬ f = tmpName f hex := fun e => tmpName_ne_self f hex e.symm
  simp [atomicWriteFileSync, fsUpdate, h1]

/-- The temp file is gone after an atomic write. -/
theorem atomicWrite_tmp (fs : FS) (f data hex : String) :
    atomicWriteFileSync fs f data hex (tmpName f hex) = none := by
  simp [atomicWriteFileSync, fsUpdate]

/-- An atomic write touches nothing besides the target and its temp file. -/
theorem atomicWrite_frame (fs : FS) (f data hex p : String) (hp : p ≠ f)
    (ht : p ≠ tmpName f hex) : atomicWriteFileSync fs f data hex p = fs p := by
  simp [atomicWriteFileSync, fsUpdate, hp, ht]

/-- Running writer `i`'s two instructions back-to-back is exactly
`atomicWriteFileSync` — the interleaving machine refines the sequential
write path of `src/refs.js`. -/
theorem wstep_twice (key : String) (docs hexes : Nat → String) (s : CState)
    (i : Nat) (h : s.pc i = 0) :
    (wstep key docs hexes (wstep key docs hexes s i) i).fs
      = atomicWriteFileSync s.fs key (docs i) (hexes i) := by
  simp [wstep, h, atomicWriteFileSync]

theorem wrun_pc (key : String) (docs hexes : Nat → String) :
    ∀ (sched : List Nat) (s : CState) (i : Nat), s.pc i ≤ 2 →
      (wrun key docs hexes sched s).pc i = min 2 (s.pc i + sched.count i) := by
  intro sched
  induction sched with
  | nil => intro s i h; simp [wrun]; omega
  | cons a l ih =>
    intro s i h
    have hstep : wrun key docs hexes (a :: l) s
        = wrun key docs hexes l (wstep key docs hexes s a) := rfl
    rw [hstep]
    by_cases hai : a = i
    · subst hai
      have hpc : (wstep key docs hexes s a).pc a = min 2 (s.pc a + 1) := by
        simp only [wstep]
        by_cases h0 : s.pc a = 0
        · simp [h0]
        · by_cases h1 : s.pc a = 1
          · simp [h0, h1]
          · have h2 : s.pc a = 2 := by omega
            simp [h0, h1, h2]
      rw [ih _ a (by rw [hpc]; omega), hpc, List.count_cons]
      simp
      omega
    · have hne : ¬ i = a := fun e => hai e.symm
      have hpc : (wstep key docs hexes s a).pc i = s.pc i := by
        simp only [wstep]
        by_cases h0 : s.pc a = 0
        · simp [h0, hne]
        · by_cases h1 : s.pc a = 1
          · simp [h0, h1, hne]
          · simp [h0, h1]
      rw [ih _ i (by rw [hpc]; exact h), hpc, List.count_cons]
      simp [hai]

theorem wstep_inv {key : String} {docs hexes : Nat → String} {n : Nat}
    {fs0 : FS}
    (hinj : ∀ i j, i < n → j < n → hexes i = hexes j → i = j)
    {s : CState} {i : Nat} (hi : i < n)
    (hInv : WInv key docs hexes n fs0 s) :
    WInv key docs hexes n fs0 (wstep key docs hexes s i) := by
  obtain ⟨hb, h1, h2, hk⟩ := hInv
  have htmpk : ∀ j : Nat, tmpName key (hexes j) ≠ key := fun j =>
    tmpName_ne_self key (hexes j)
  have htmp2 : ∀ j k : Nat, j < n → k < n → j ≠ k →
      tmpName key (hexes j) ≠ tmpName key (hexes k) := by
    intro j k hj hk2 hjk he
    exact hjk (hinj j k hj hk2 (tmpName_inj he))
  by_cases hp0 : s.pc i = 0
  · have hs : wstep key docs hexes s i
        = { fs := fsUpdate s.fs (tmpName key (hexes i)) (some (docs i)),
            pc := fun j => if j = i then 1 else s.pc j } := by
      simp [wstep, hp0]
    rw [hs]
    refine ⟨?_, ?_, ?_, ?_⟩
    · intro j hj
      by_cases hji : j = i <;> simp [hji]
      exact hb j hj
    · intro j hj hpj
      by_cases hji : j = i
      · subst hji
        simp [fsUpdate]
      · simp only [hji, if_false] at hpj
        simp only [fsUpdate, if_neg (htmp2 j i hj hi hji)]
        exact h1 j hj hpj
    · intro j hj hpj
      by_cases hji : j = i
      · subst hji; simp at hpj
      · simp only [hji, if_false] at hpj
        simp only [fsUpdate, if_neg (htmp2 j i hj hi hji)]
        exact h2 j hj hpj
    · have hkey : fsUpdate s.fs (tmpName key (hexes i)) (some (docs i)) key
          = s.fs key := by
        have hne : ¬ key = tmpName key (hexes i) := fun e => htmpk i e.symm
        simp [fsUpdate, hne]
      rcases hk with ⟨hke, hno2⟩ | ⟨j, hj, hpj, hkj⟩
      · left
        refine ⟨?_, ?_⟩
        · show fsUpdate s.fs (tmpName key (hexes i)) (some (docs i)) key = fs0 key
          rw [hkey, hke]
        · intro j hj
          by_cases hji : j = i <;> simp [hji]
          exact hno2 j hj
      · right
        have hji : j ≠ i := fun e => by rw [e, hp0] at hpj; exact absurd hpj (by decide)
        refine ⟨j, hj, by simp [hji, hpj], ?_⟩
        show fsUpdate s.fs (tmpName key (hexes i)) (some (docs i)) key = some (docs j)
        rw [hkey]; exact hkj
  · by_cases hp1 : s.pc i = 1
    · have htmpi := h1 i hi hp1
      have hs : wstep key docs hexes s i
          = { fs := fsUpdate (fsUpdate s.fs key (s.fs (tmpName key (hexes i))))
                (tmpName key (hexes i)) none,
              pc := fun j => if j = i then 2 else s.pc j } := by
        simp [wstep, hp0, hp1]
      rw [hs]
      refine ⟨?_, ?_, ?_, ?_⟩
      · intro j hj
        by_cases hji : j = i <;> simp [hji]
        exact hb j hj
      · intro j hj hpj
        by_cases hji : j = i
        · subst hji; simp at hpj
        · simp only [hji, if_false] at hpj
          simp only [fsUpdate, if_neg (htmp2 j i hj hi hji),
            if_neg (htmpk j)]
          exact h1 j hj hpj
      · intro j hj hpj
        by_cases hji : j = i
        · subst hji
          simp [fsUpdate]
        · simp only [hji, if_false] at hpj
          simp only [fsUpdate, if_neg (htmp2 j i hj hi hji),
            if_neg (htmpk j)]
          exact h2 j hj hpj
      · right
        refine ⟨i, hi, by simp, ?_⟩
        have hne : ¬ key = tmpName key (hexes i) := fun e => htmpk i e.symm
        simp only [fsUpdate, if_neg hne, if_pos rfl]
        exact htmpi
    · have hs : wstep key docs hexes s i = s := by
        simp [wstep, hp0, hp1]
      rw [hs]
      exact ⟨hb, h1, h2, hk⟩

theorem wrun_inv {key : String} {docs hexes : Nat → String} {n : Nat}
    {fs0 : FS}
    (hinj : ∀ i j, i < n → j < n → hexes i = hexes j → i = j) :
    ∀ (sched : List Nat) (s : CState), (∀ p ∈ sched, p < n) →
      WInv key docs hexes n fs0 s →
      WInv key docs hexes n fs0 (wrun key docs hexes sched s) := by
  intro sched
  induction sched with
  | nil => intro s _ hs; exact hs
  | cons a l ih =>
    intro s hmem hs
    exact ih _ (fun p hp => hmem p (List.mem_cons_of_mem a hp))
      (wstep_inv hinj (hmem a (List.mem_cons_self a l)) hs)

/-- After a complete schedule (every writer's two instructions executed),
the key holds exactly one writer's complete document and every temp file is
gone. -/
theorem wrun_result {key : String} {docs hexes : Nat → String} {n : Nat}
    (fs0 : FS) (sched : List Nat)
    (hinj : ∀ i j, i < n → j < n → hexes i = hexes j → i = j)
    (hmem : ∀ p ∈ sched, p < n)
    (hcount : ∀ i, i < n → sched.count i = 2) (hn : 0 < n) :
    (∃ j, j < n ∧
      (wrun key docs hexes sched ⟨fs0, fun _ => 0⟩).fs key = some (docs j)) ∧
    (∀ i, i < n →
      (wrun key docs hexes sched ⟨fs0, fun _ => 0⟩).fs
        (tmpName key (hexes i)) = none) := by
  have hinv0 : WInv key docs hexes n fs0 ⟨fs0, fun _ => 0⟩ := by
    refine ⟨fun i _ => by simp, fun i _ h => by simp at h,
      fun i _ h => by simp at h, Or.inl ⟨rfl, fun i _ h => by simp at h⟩⟩
  have hinv := wrun_inv hinj sched _ hmem hinv0
  have hpc : ∀ i, i < n →
      (wrun key docs hexes sched ⟨fs0, fun _ => 0⟩).pc i = 2 := by
    intro i hi
    have := wrun_pc key docs hexes sched ⟨fs0, fun _ => 0⟩ i (by simp)
    rw [this]
    simp [hcount i hi]
  obtain ⟨_, _, h2, hk⟩ := hinv
  constructor
  · rcases hk with ⟨_, hno2⟩ | ⟨j, hj, _, hkj⟩
    · exact absurd (hpc 0 hn) (hno2 0 hn)
    · exact ⟨j, hj, hkj⟩
  · intro i hi
    exact h2 i hi (hpc i hi)

/-! ### Claim C7: load tolerates absence and corruption, returns last write -/


theorem putSeqRefs_last {α : Type} (enc : α → String) (home : String)
    (port : Nat) (tid : String) (a : Option String) (fs : FS)
    (ds : List (α × String)) (d : α) (hx : String) :
    putSeqRefs enc home port tid a fs (ds ++ [(d, hx)])
      (refCachePath home port tid a) = some (enc d) := by
  rw [putSeqRefs, List.foldl_append]
  simp only [List.foldl_cons, List.foldl_nil, saveRefs]
  exact atomicWrite_at _ _ _ _

theorem putSeqTab_last {α : Type} (enc : α → String) (home : String)
    (port : Nat) (a : Option String) (fs : FS)
    (ds : List (α × String)) (d : α) (hx : String) :
    putSeqTab enc home port a fs (ds ++ [(d, hx)])
      (tabMapPath home port a) = some (enc d) := by
  rw [putSeqTab, List.foldl_append]
  simp only [List.foldl_cons, List.foldl_nil, saveTabMap]
  exact atomicWrite_at _ _ _ _

/-- C7: `loadRefs`/`loadTabMap` return an absent result (`none`) both when
the key was never written and when the stored content fails to parse, and
after any sequence of saves they return the most recently fully-written
document (given that decoding inverts encoding).  Totality of the Lean
functions models the absence of exceptions. -/
theorem c7_load_semantics {α : Type} (dec : String → Option α)
    (enc : α → String) (home : String) (port : Nat) (tid : String)
    (a : Option String) :
    (∀ fs : FS, fs (refCachePath home port tid a) = none →
      loadRefs dec home fs port tid a = none)
    ∧ (∀ (fs : FS) (s : String), fs (refCachePath home port tid a) = some s →
        dec s = none → loadRefs dec home fs port tid a = none)
    ∧ (∀ (fs : FS) (ds : List (α × String)) (d : α) (hx : String),
        (∀ x : α, dec (enc x) = some x) →
        loadRefs dec home (putSeqRefs enc home port tid a fs (ds ++ [(d, hx)]))
          port tid a = some d)
    ∧ (∀ fs : FS, fs (tabMapPath home port a) = none →
        loadTabMap dec home fs port a = none)
    ∧ (∀ (fs : FS) (s : String), fs (tabMapPath home port a) = some s →
        dec s = none → loadTabMap dec home fs port a = none)
    ∧ (∀ (fs : FS) (ds : List (α × String)) (d : α) (hx : String),
        (∀ x : α, dec (enc x) = some x) →
        loadTabMap dec home (putSeqTab enc home port a fs (ds ++ [(d, hx)]))
          port a = some d) := by
  refine ⟨?_, ?_, ?_, ?_, ?_, ?_⟩
  · intro fs h; simp [loadRefs, h]
  · intro fs s h hd; simp [loadRefs, h, hd]
  · intro fs ds d hx hrt
    simp [loadRefs, putSeqRefs_last enc home port tid a fs ds d hx, hrt]
  · intro fs h; simp [loadTabMap, h]
  · intro fs s h hd; simp [loadTabMap, h, hd]
  · intro fs ds d hx hrt
    simp [loadTabMap, putSeqTab_last enc home port a fs ds d hx, hrt]

/-- Witness for C7 at concrete inputs. -/
theorem c7_load_semantics_witness :
    loadRefs (fun s => some s) "h"
      (putSeqRefs (fun s : String => s) "h" 9 "TAB" none fsEmpty
        ([("d1", "aa")] ++ [("d2", "bb")])) 9 "TAB" none = some "d2"
    ∧ loadTabMap (fun s => some s) "h"
      (putSeqTab (fun s : String => s) "h" 9 none fsEmpty
        ([] ++ [("m1", "cc")])) 9 none = some "m1" := by
  have h := c7_load_semantics (fun s => some s) (fun s : String => s) "h" 9 "TAB" none
  exact ⟨h.2.2.1 fsEmpty [("d1", "aa")] "d2" "bb" (fun x => rfl),
    h.2.2.2.2.2 fsEmpty [] "m1" "cc" (fun x => rfl)⟩

/-! ### `path.join` on clean components reduces to concatenation -/

theorem splitOn_ne_nil (sep : Char) (l : List Char) : splitOn sep l ≠ [] := by
  cases l with
  | nil => simp [splitOn]
  | cons c rest =>
    simp only [splitOn]
    split
    · simp
    · split <;> simp

theorem splitOn_cons_sep (sep : Char) (t : List Char) :
    splitOn sep (sep :: t) = [] :: splitOn sep t := by
  simp only [splitOn]
  cases h : splitOn sep t with
  | nil => exact absurd h (splitOn_ne_nil sep t)
  | cons s ss => simp

theorem splitOn_append (sep : Char) (x y : List Char) :
    splitOn sep (x ++ sep :: y) = splitOn sep x ++ splitOn sep y := by
  induction x with
  | nil =>
    rw [List.nil_append, splitOn_cons_sep]
    rfl
  | cons c xs ih =>
    have hs : splitOn sep ((c :: xs) ++ sep :: y)
        = match splitOn sep (xs ++ sep :: y) with
          | [] => [[]]
          | s :: ss => if c = sep then [] :: s :: ss else (c :: s) :: ss := rfl
    rw [hs, ih]
    cases h : splitOn sep xs with
    | nil => exact absurd h (splitOn_ne_nil sep xs)
    | cons s ss =>
      have hs2 : splitOn sep (c :: xs)
          = match splitOn sep xs with
            | [] => [[]]
            | s :: ss => if c = sep then [] :: s :: ss else (c :: s) :: ss := rfl
      rw [hs2, h]
      by_cases hc : c = sep
      · simp [hc]
      · simp [hc]

theorem splitOn_no_sep (sep : Char) {l : List Char} (h : sep ∉ l) :
    splitOn sep l = [l] := by
  induction l with
  | nil => rfl
  | cons c rest ih =>
    have hc : ¬(c = sep) := by
      intro e
      subst e
      exact h (List.mem_cons_self c rest)
    have hr : sep ∉ rest := fun m => h (List.mem_cons_of_mem c m)
    simp only [splitOn, ih hr]
    simp [hc]

theorem joinWith_splitOn (sep : Char) (l : List Char) :
    joinWith sep (splitOn sep l) = l := by
  induction l with
  | nil => rfl
  | cons c rest ih =>
    cases h : splitOn sep rest with
    | nil => exact absurd h (splitOn_ne_nil sep rest)
    | cons s ss =>
      rw [h] at ih
      have hs : splitOn sep (c :: rest)
          = if c = sep then [] :: s :: ss else (c :: s) :: ss := by
        simp only [splitOn, h]
      rw [hs]
      by_cases hc : c = sep
      · subst hc
        simp only [if_pos rfl, joinWith, List.nil_append]
        exact congrArg (List.cons c) ih
      · rw [if_neg hc]
        cases ss with
        | nil =>
          simp only [joinWith] at ih ⊢
          rw [ih]
        | cons x xs =>
          simp only [joinWith] at ih ⊢
          rw [List.cons_append, ih]

theorem normStep_plain (abs : Bool) (acc : List (List Char)) {s : List Char}
    (h1 : s ≠ []) (h2 : s ≠ ['.']) (h3 : s ≠ ['.', '.']) :
    normStep abs acc s = s :: acc := by
  simp [normStep, h1, h2, h3]

theorem foldl_normStep_plains (abs : Bool) (P : List (List Char)) :
    ∀ acc : List (List Char),
      (∀ s ∈ P, s ≠ [] ∧ s ≠ ['.'] ∧ s ≠ ['.', '.']) →
      P.foldl (normStep abs) acc = P.reverse ++ acc := by
  induction P with
  | nil =>
    intro acc h
    simp
  | cons p ps ih =>
    intro acc h
    have hp := h p (List.mem_cons_self p ps)
    rw [List.foldl_cons, normStep_plain abs acc hp.1 hp.2.1 hp.2.2,
      ih (p :: acc) (fun s hs => h s (List.mem_cons_of_mem p hs))]
    simp

theorem joinWith_append_last (sep : Char) (l : List (List Char)) (x : List Char)
    (hl : l ≠ []) : joinWith sep (l ++ [x]) = joinWith sep l ++ sep :: x := by
  induction l with
  | nil => exact absurd rfl hl
  | cons s ss ih =>
    cases ss with
    | nil => simp [joinWith]
    | cons t ts =>
      have h2 := ih (by simp)
      rw [List.cons_append, List.cons_append]
      simp only [joinWith]
      rw [show t :: (ts ++ [x]) = (t :: ts) ++ [x] from
        (List.cons_append t ts [x]).symm, h2]
      simp

theorem joinWith_ne_nil_last (sep : Char) (l : List (List Char)) {x : List Char}
    (hx : x ≠ []) : joinWith sep (l ++ [x]) ≠ [] := by
  cases l with
  | nil => simpa [joinWith] using hx
  | cons s ss =>
    rw [joinWith_append_last sep (s :: ss) x (by simp)]
    simp

theorem isAbs_data {p : String} (h : isAbs p = true) :
    ∃ t, p.data = ('/') :: t := by
  have h2 : p.data.head? = some '/' := by
    simpa [isAbs] using h
  cases hd : p.data with
  | nil => rw [hd] at h2; exact absurd h2 (by simp)
  | cons c t =>
    rw [hd] at h2
    simp only [List.head?_cons, Option.some.injEq] at h2
    exact ⟨t, by rw [h2]⟩

/-- On a clean absolute path extended by one plain component, `path.join`
performs no normalization: it is plain concatenation. -/
theorem pathJoin_plain {p b : String} (hp : cleanAbs p) (hb : plainSeg b) :
    pathJoin p b = p ++ "/" ++ b := by
  obtain ⟨habs, htail⟩ := hp
  obtain ⟨hb1, hb2, hb3, hb4⟩ := hb
  obtain ⟨t, hpd⟩ := isAbs_data habs
  have hpne : p.data ≠ [] := by rw [hpd]; simp
  have hdata : (p ++ "/" ++ b).data = p.data ++ ('/') :: b.data := by
    simp [String.data_append]
  have hdne : (p ++ "/" ++ b).data ≠ [] := by
    rw [hdata, hpd]
    simp
  have hsp : splitOn '/' p.data = [] :: splitOn '/' t := by
    rw [hpd]
    exact splitOn_cons_sep '/' t
  have htail2 : ∀ s ∈ splitOn '/' t ++ [b.data],
      s ≠ [] ∧ s ≠ ['.'] ∧ s ≠ ['.', '.'] := by
    intro s hs
    rcases List.mem_append.mp hs with hs | hs
    · have h3 := htail s (by rw [hsp]; exact hs)
      exact ⟨h3.1, h3.2.2.1, h3.2.2.2⟩
    · rw [List.mem_singleton.mp hs]
      exact ⟨hb1, hb3, hb4⟩
  have habs2 : isAbs (p ++ "/" ++ b) = true := by
    simp only [isAbs, hdata, hpd]
    simp
  have hnorm : normSegs true (splitOn '/' ((p ++ "/" ++ b).data))
      = splitOn '/' t ++ [b.data] := by
    rw [hdata, splitOn_append, splitOn_no_sep '/' hb2, hsp, List.cons_append,
      normSegs, List.foldl_cons]
    have h0 : normStep true [] [] = [] := by simp [normStep]
    rw [h0, foldl_normStep_plains true (splitOn '/' t ++ [b.data]) [] htail2]
    simp
  have hbodyne : joinWith '/'
      (normSegs true (splitOn '/' ((p ++ "/" ++ b).data))) ≠ [] := by
    rw [hnorm]
    exact joinWith_ne_nil_last '/' _ hb1
  have htr : hasTrailSlash (p ++ "/" ++ b) = false := by
    rcases List.eq_nil_or_concat b.data with hnil | ⟨bs, d, hbd⟩
    · exact absurd hnil hb1
    · rw [List.concat_eq_append] at hbd
      have hd : d ∈ b.data := by
        rw [hbd]
        exact List.mem_append_right bs (List.mem_singleton.2 rfl)
      have hdd : d ≠ '/' := fun e => hb2 (e ▸ hd)
      simp only [hasTrailSlash, hdata, hbd]
      rw [show p.data ++ ('/') :: (bs ++ [d]) = (p.data ++ ('/') :: bs) ++ [d]
        from by simp, List.getLast?_concat]
      rw [beq_eq_false_iff_ne]
      intro e
      exact hdd (Option.some.inj e)
  have hjoin : pathJoin p b = pathNormalize (p ++ "/" ++ b) := by
    rw [pathJoin, if_neg hpne, if_neg hb1]
  rw [hjoin, pathNormalize, if_neg hdne]
  simp only [habs2, htr]
  rw [if_neg hbodyne]
  simp only [if_true, Bool.false_eq_true, if_false]
  apply String.ext
  rw [hnorm, joinWith_append_last '/' _ _ (splitOn_ne_nil '/' t)]
  have hjs : joinWith '/' (splitOn '/' t) = t := joinWith_splitOn '/' t
  rw [hjs]
  simp [String.data_append, hpd]

/-- A clean absolute path extended by a plain component is again clean. -/
theorem cleanAbs_append {p b : String} (hp : cleanAbs p) (hb : plainSeg b) :
    cleanAbs (p ++ "/" ++ b) := by
  obtain ⟨habs, htail⟩ := hp
  obtain ⟨hb1, hb2, hb3, hb4⟩ := hb
  obtain ⟨t, hpd⟩ := isAbs_data habs
  have hdata : (p ++ "/" ++ b).data = p.data ++ ('/') :: b.data := by
    simp [String.data_append]
  constructor
  · simp only [isAbs, hdata, hpd]
    simp
  · intro s hs
    rw [hdata, hpd, List.cons_append, splitOn_cons_sep, splitOn_append,
      splitOn_no_sep '/' hb2] at hs
    simp only [List.tail_cons] at hs
    rcases List.mem_append.mp hs with hs | hs
    · refine htail s ?_
      rw [hpd, splitOn_cons_sep]
      simpa using hs
    · rw [List.mem_singleton.mp hs]
      exact ⟨hb1, hb2, hb3, hb4⟩

theorem optPlain_noSlash {a : Option String} (h : optPlain a) : optNoSlash a := by
  intro s hs
  by_cases he : s = ""
  · subst he
    simp [noSlash]
  · exact (h s (by simp [normLabel, hs, he])).2.1

theorem cleanAbs_cacheDirFlat {home : String} (hh : cleanAbs home)
    {a : Option String} (ha : optPlain a) : cleanAbs (getCacheDirFlat home a) := by
  have hbase : cleanAbs (home ++ "/" ++ ".agent-chrome") :=
    cleanAbs_append hh (by decide)
  cases a with
  | none => exact hbase
  | some s =>
    by_cases hs : s = ""
    · simp only [getCacheDirFlat, if_pos hs]
      exact hbase
    · simp only [getCacheDirFlat, if_neg hs]
      exact cleanAbs_append hbase (ha s (by simp [normLabel, hs]))

/-- With a clean absolute home and a plain agent label, `getCacheDir`
computes the plain concatenation. -/
theorem getCacheDir_eq_flat {home : String} (hh : cleanAbs home)
    {a : Option String} (ha : optPlain a) :
    getCacheDir home a = getCacheDirFlat home a := by
  have hbase : pathJoin home ".agent-chrome" = home ++ "/" ++ ".agent-chrome" :=
    pathJoin_plain hh (by decide)
  cases a with
  | none => exact hbase
  | some s =>
    by_cases hs : s = ""
    · simp only [getCacheDir, getCacheDirFlat, if_pos hs]
      exact hbase
    · simp only [getCacheDir, getCacheDirFlat, if_neg hs]
      rw [hbase]
      exact pathJoin_plain (cleanAbs_append hh (by decide))
        (ha s (by simp [normLabel, hs]))

theorem refsName_data (p : Nat) (t : String) :
    (Nat.repr p ++ "-" ++ (t.take 8 ++ ".refs.json")).data = refsFile p t := by
  simp [String.data_append, refsFile, List.append_assoc]

theorem refsName_plain (p : Nat) {t : String} (ht : noSlash (t.take 8)) :
    plainSeg (Nat.repr p ++ "-" ++ (t.take 8 ++ ".refs.json")) := by
  refine ⟨?_, ?_, ?_, ?_⟩ <;> rw [refsName_data]
  · cases hr : (Nat.repr p).data with
    | nil => exact absurd hr (repr_ne_nil p)
    | cons c cs => simp [refsFile, hr]
  · exact refsFile_noSlash ht
  · intro h
    cases hr : (Nat.repr p).data with
    | nil => exact repr_ne_nil p hr
    | cons c cs =>
      rw [refsFile, hr] at h
      have hc : c = '.' := by
        have h2 := congrArg List.head? h
        simpa using h2
      have hdig := repr_isDigit p c (by rw [hr]; exact List.mem_cons_self c cs)
      rw [hc] at hdig
      exact absurd hdig (by decide)
  · intro h
    cases hr : (Nat.repr p).data with
    | nil => exact repr_ne_nil p hr
    | cons c cs =>
      rw [refsFile, hr] at h
      have hc : c = '.' := by
        have h2 := congrArg List.head? h
        simpa using h2
      have hdig := repr_isDigit p c (by rw [hr]; exact List.mem_cons_self c cs)
      rw [hc] at hdig
      exact absurd hdig (by decide)

theorem tabsName_data (p : Nat) :
    (Nat.repr p ++ "-tabs.json").data = tabsFile p := by
  simp [String.data_append, tabsFile]

theorem tabsName_plain (p : Nat) : plainSeg (Nat.repr p ++ "-tabs.json") := by
  refine ⟨?_, ?_, ?_, ?_⟩ <;> rw [tabsName_data]
  · cases hr : (Nat.repr p).data with
    | nil => exact absurd hr (repr_ne_nil p)
    | cons c cs => simp [tabsFile, hr]
  · exact tabsFile_noSlash p
  · intro h
    cases hr : (Nat.repr p).data with
    | nil => exact repr_ne_nil p hr
    | cons c cs =>
      rw [tabsFile, hr] at h
      have hc : c = '.' := by
        have h2 := congrArg List.head? h
        simpa using h2
      have hdig := repr_isDigit p c (by rw [hr]; exact List.mem_cons_self c cs)
      rw [hc] at hdig
      exact absurd hdig (by decide)
  · intro h
    cases hr : (Nat.repr p).data with
    | nil => exact repr_ne_nil p hr
    | cons c cs =>
      rw [tabsFile, hr] at h
      have hc : c = '.' := by
        have h2 := congrArg List.head? h
        simpa using h2
      have hdig := repr_isDigit p c (by rw [hr]; exact List.mem_cons_self c cs)
      rw [hc] at hdig
      exact absurd hdig (by decide)

/-- With a clean absolute home, plain labels and slash-free truncated
target ids, the ref cache path is the plain concatenation. -/
theorem refCachePath_eq_flat {home : String} (hh : cleanAbs home)
    {a : Option String} (ha : optPlain a) (p : Nat) {t : String}
    (ht : noSlash (t.take 8)) :
    refCachePath home p t a = refCachePathFlat home p t a := by
  rw [refCachePath, refCachePathFlat, getCacheDir_eq_flat hh ha,
    pathJoin_plain (cleanAbs_cacheDirFlat hh ha) (refsName_plain p ht)]

/-- With a clean absolute home and plain labels, the tab map path is the
plain concatenation. -/
theorem tabMapPath_eq_flat {home : String} (hh : cleanAbs home)
    {a : Option String} (ha : optPlain a) (p : Nat) :
    tabMapPath home p a = tabMapPathFlat home p a := by
  rw [tabMapPath, tabMapPathFlat, getCacheDir_eq_flat hh ha,
    pathJoin_plain (cleanAbs_cacheDirFlat hh ha) (tabsName_plain p)]

/-! ### Claim C8: namespace isolation between agent labels -/

/-- C8 counterexample, two independent failures of the claim as stated.
With a path separator inside a target id, a document written under agent
label "12-x" is returned by a `get` in the unlabeled partition — the two
cache paths coincide. And `path.join` collapses the agent label "." into
the base directory, so a document written under label "." is returned by a
`get` in the unlabeled partition even with every component slash-free. -/
theorem c8_counterexample :
    normLabel (some "12-x") ≠ normLabel none
    ∧ refCachePath "/h" 5 "ABCD" (some "12-x")
        = refCachePath "/h" 12 "x/5-ABCD" none
    ∧ loadRefs (fun s => some s) "/h"
        (saveRefs (fun s : String => s) "/h" fsEmpty 5 "ABCD" "DOC-A"
          (some "12-x") "ff")
        12 "x/5-ABCD" none = some "DOC-A"
    ∧ normLabel (some ".") ≠ normLabel none
    ∧ refCachePath "/h" 5 "ABCDEFGH" (some ".")
        = refCachePath "/h" 5 "ABCDEFGH" none
    ∧ loadRefs (fun s => some s) "/h"
        (saveRefs (fun s : String => s) "/h" fsEmpty 5 "ABCDEFGH" "DOC-B"
          (some ".") "ff")
        5 "ABCDEFGH" none = some "DOC-B" := by
  have hpath1 : refCachePath "/h" 5 "ABCD" (some "12-x")
      = refCachePath "/h" 12 "x/5-ABCD" none := by decide
  have hpath2 : refCachePath "/h" 5 "ABCDEFGH" (some ".")
      = refCachePath "/h" 5 "ABCDEFGH" none := by decide
  refine ⟨by decide, hpath1, ?_, by decide, hpath2, ?_⟩
  · show (match (saveRefs (fun s : String => s) "/h" fsEmpty 5 "ABCD" "DOC-A"
        (some "12-x") "ff")
        (refCachePath "/h" 12 "x/5-ABCD" none) with
      | none => none
      | some s => some s) = some "DOC-A"
    rw [← hpath1, saveRefs, atomicWrite_at]
  · show (match (saveRefs (fun s : String => s) "/h" fsEmpty 5 "ABCDEFGH" "DOC-B"
        (some ".") "ff")
        (refCachePath "/h" 5 "ABCDEFGH" none) with
      | none => none
      | some s => some s) = some "DOC-B"
    rw [← hpath2, saveRefs, atomicWrite_at]

/-- C8 (amended): with a clean absolute home directory (the shape
`os.homedir()` returns), provided agent labels are plain path components
(nonempty, slash-free, and neither `.` nor `..`, the components `path.join`
normalizes away) and truncated target ids contain no path separator, a save
under one partition (labeled or unlabeled) leaves every ref table and tab
map of any other partition unchanged — so a `get` under a different label
never observes the write. -/
theorem c8_label_isolation {α β : Type} (decR : String → Option α)
    (encR : α → String) (decT : String → Option β) (encT : β → String)
    (home : String) (hh : cleanAbs home) (a b : Option String)
    (hab : normLabel a ≠ normLabel b)
    (hpa : optPlain a) (hpb : optPlain b)
    (port port' : Nat) (tid tid' : String)
    (hta : noSlash (tid.take 8)) (htb : noSlash (tid'.take 8))
    (fs : FS) (doc : α) (mp : β) (hex : String) :
    loadRefs decR home (saveRefs encR home fs port tid doc a hex) port' tid' b
      = loadRefs decR home fs port' tid' b
    ∧ loadTabMap decT home (saveRefs encR home fs port tid doc a hex) port' b
      = loadTabMap decT home fs port' b
    ∧ loadRefs decR home (saveTabMap encT home fs port mp a hex) port' tid' b
      = loadRefs decR home fs port' tid' b
    ∧ loadTabMap decT home (saveTabMap encT home fs port mp a hex) port' b
      = loadTabMap decT home fs port' b := by
  have hsa : optNoSlash a := optPlain_noSlash hpa
  have hsb : optNoSlash b := optPlain_noSlash hpb
  have hfa : refCachePath home port tid a = refCachePathFlat home port tid a :=
    refCachePath_eq_flat hh hpa port hta
  have hfb : refCachePath home port' tid' b
      = refCachePathFlat home port' tid' b :=
    refCachePath_eq_flat hh hpb port' htb
  have hga : tabMapPath home port a = tabMapPathFlat home port a :=
    tabMapPath_eq_flat hh hpa port
  have hgb : tabMapPath home port' b = tabMapPathFlat home port' b :=
    tabMapPath_eq_flat hh hpb port'
  have hRR : refCachePath home port' tid' b ≠ refCachePath home port tid a := by
    rw [hfa, hfb]
    intro e
    exact hab ((refCachePathFlat_inj home htb hta hsb hsa e).1).symm
  have hRRt : refCachePath home port' tid' b
      ≠ tmpName (refCachePath home port tid a) hex := by
    rw [hfa, hfb]
    exact fun e => tmpName_ne_refCachePathFlat _ hex home port' tid' b e.symm
  have hTR : tabMapPath home port' b ≠ refCachePath home port tid a := by
    rw [hfa, hgb]
    exact fun e => refCachePathFlat_ne_tabMapPathFlat home port tid a port' b e.symm
  have hTRt : tabMapPath home port' b
      ≠ tmpName (refCachePath home port tid a) hex := by
    rw [hfa, hgb]
    exact fun e => tmpName_ne_tabMapPathFlat _ hex home port' b e.symm
  have hRT : refCachePath home port' tid' b ≠ tabMapPath home port a := by
    rw [hfb, hga]
    exact refCachePathFlat_ne_tabMapPathFlat home port' tid' b port a
  have hRTt : refCachePath home port' tid' b
      ≠ tmpName (tabMapPath home port a) hex := by
    rw [hfb, hga]
    exact fun e => tmpName_ne_refCachePathFlat _ hex home port' tid' b e.symm
  have hTT : tabMapPath home port' b ≠ tabMapPath home port a := by
    rw [hga, hgb]
    intro e
    exact hab ((tabMapPathFlat_inj home hsb hsa e).1).symm
  have hTTt : tabMapPath home port' b
      ≠ tmpName (tabMapPath home port a) hex := by
    rw [hga, hgb]
    exact fun e => tmpName_ne_tabMapPathFlat _ hex home port' b e.symm
  refine ⟨?_, ?_, ?_, ?_⟩
  · rw [loadRefs, loadRefs, saveRefs, atomicWrite_frame _ _ _ _ _ hRR hRRt]
  · rw [loadTabMap, loadTabMap, saveRefs, atomicWrite_frame _ _ _ _ _ hTR hTRt]
  · rw [loadRefs, loadRefs, saveTabMap, atomicWrite_frame _ _ _ _ _ hRT hRTt]
  · rw [loadTabMap, loadTabMap, saveTabMap, atomicWrite_frame _ _ _ _ _ hTT hTTt]

/-- Witness for C8 at concrete inputs: a labeled write is invisible to the
unlabeled partition. -/
theorem c8_label_isolation_witness :
    loadRefs (fun s => some s) "/h"
      (saveRefs (fun s : String => s) "/h" fsEmpty 9 "TGTABCDE" "DOC"
        (some "alice") "ff")
      9 "TGTABCDE" none = none := by
  have h := c8_label_isolation (fun s => some s) (fun s : String => s)
    (fun s => some s) (fun s : String => s) "/h" (by decide)
    (some "alice") none
    (by decide) (by intro s hs; simp [normLabel] at hs; rw [← hs]; decide)
    (by intro s hs; simp [normLabel] at hs)
    9 9 "TGTABCDE" "TGTABCDE" (by decide) (by decide) fsEmpty "DOC" "M" "ff"
  rw [h.1]
  rfl

/-! ### Claim C9: one document per triple / per pair -/


/-- C9 counterexample: two target ids sharing their first eight characters
form distinct (endpoint, label, tab) triples, yet share one cache file — a
`saveRefs` under one triple changes what `loadRefs` returns for the other
(from absent to the freshly written document). -/
theorem c9_counterexample :
    ("AAAAAAAA1" : String) ≠ "AAAAAAAA2"
    ∧ loadRefs (fun s => some s) "/h" fsEmpty 1 "AAAAAAAA2" none = none
    ∧ loadRefs (fun s => some s) "/h"
        (saveRefs (fun s : String => s) "/h" fsEmpty 1 "AAAAAAAA1" "D1" none "ff")
        1 "AAAAAAAA2" none = some "D1" := by
  refine ⟨by decide, rfl, ?_⟩
  have hpath : refCachePath "/h" 1 "AAAAAAAA1" none
      = refCachePath "/h" 1 "AAAAAAAA2" none := by decide
  show (match (saveRefs (fun s : String => s) "/h" fsEmpty 1 "AAAAAAAA1" "D1"
      none "ff")
      (refCachePath "/h" 1 "AAAAAAAA2" none) with
    | none => none
    | some s => some s) = some "D1"
  rw [← hpath, saveRefs, atomicWrite_at]

/-- C9 (amended): with a clean absolute home directory, there is one ref
table document per (endpoint, normalized label, first-8-characters-of-
target-id) triple and one tab map document per (endpoint, normalized label)
pair: a `saveRefs` under one triple never changes what `loadRefs` returns
for a triple differing in any of those three components (labels being plain
path components and truncated target ids slash-free), a `saveTabMap` never
changes a tab map of a different pair, and ref-table writes and tab-map
documents never affect each other at all. -/
theorem c9_per_triple_isolation {α β : Type} (decR : String → Option α)
    (encR : α → String) (decT : String → Option β) (encT : β → String)
    (home : String) (hh : cleanAbs home) (a b : Option String)
    (hpa : optPlain a) (hpb : optPlain b)
    (port port' : Nat) (tid tid' : String)
    (hta : noSlash (tid.take 8)) (htb : noSlash (tid'.take 8))
    (fs : FS) (doc : α) (mp : β) (hex : String) :
    (normLabel a ≠ normLabel b ∨ port ≠ port' ∨ tid.take 8 ≠ tid'.take 8 →
      loadRefs decR home (saveRefs encR home fs port tid doc a hex) port' tid' b
        = loadRefs decR home fs port' tid' b)
    ∧ (normLabel a ≠ normLabel b ∨ port ≠ port' →
        loadTabMap decT home (saveTabMap encT home fs port mp a hex) port' b
          = loadTabMap decT home fs port' b)
    ∧ loadTabMap decT home (saveRefs encR home fs port tid doc a hex) port' b
        = loadTabMap decT home fs port' b
    ∧ loadRefs decR home (saveTabMap encT home fs port mp a hex) port' tid' b
        = loadRefs decR home fs port' tid' b := by
  have hsa : optNoSlash a := optPlain_noSlash hpa
  have hsb : optNoSlash b := optPlain_noSlash hpb
  have hfa : refCachePath home port tid a = refCachePathFlat home port tid a :=
    refCachePath_eq_flat hh hpa port hta
  have hfb : refCachePath home port' tid' b
      = refCachePathFlat home port' tid' b :=
    refCachePath_eq_flat hh hpb port' htb
  have hga : tabMapPath home port a = tabMapPathFlat home port a :=
    tabMapPath_eq_flat hh hpa port
  have hgb : tabMapPath home port' b = tabMapPathFlat home port' b :=
    tabMapPath_eq_flat hh hpb port'
  refine ⟨?_, ?_, ?_, ?_⟩
  · intro hdiff
    have hRR : refCachePath home port' tid' b ≠ refCachePath home port tid a := by
      rw [hfa, hfb]
      intro e
      have h2 := refCachePathFlat_inj home htb hta hsb hsa e
      rcases hdiff with h | h | h
      · exact h h2.1.symm
      · exact h h2.2.1.symm
      · exact h h2.2.2.symm
    have hRRt : refCachePath home port' tid' b
        ≠ tmpName (refCachePath home port tid a) hex := by
      rw [hfa, hfb]
      exact fun e => tmpName_ne_refCachePathFlat _ hex home port' tid' b e.symm
    rw [loadRefs, loadRefs, saveRefs, atomicWrite_frame _ _ _ _ _ hRR hRRt]
  · intro hdiff
    have hTT : tabMapPath home port' b ≠ tabMapPath home port a := by
      rw [hga, hgb]
      intro e
      have h2 := tabMapPathFlat_inj home hsb hsa e
      rcases hdiff with h | h
      · exact h h2.1.symm
      · exact h h2.2.symm
    have hTTt : tabMapPath home port' b
        ≠ tmpName (tabMapPath home port a) hex := by
      rw [hga, hgb]
      exact fun e => tmpName_ne_tabMapPathFlat _ hex home port' b e.symm
    rw [loadTabMap, loadTabMap, saveTabMap, atomicWrite_frame _ _ _ _ _ hTT hTTt]
  · have hTR : tabMapPath home port' b ≠ refCachePath home port tid a := by
      rw [hfa, hgb]
      exact fun e => refCachePathFlat_ne_tabMapPathFlat home port tid a port' b e.symm
    have hTRt : tabMapPath home port' b
        ≠ tmpName (refCachePath home port tid a) hex := by
      rw [hfa, hgb]
      exact fun e => tmpName_ne_tabMapPathFlat _ hex home port' b e.symm
    rw [loadTabMap, loadTabMap, saveRefs, atomicWrite_frame _ _ _ _ _ hTR hTRt]
  · have hRT : refCachePath home port' tid' b ≠ tabMapPath home port a := by
      rw [hfb, hga]
      exact refCachePathFlat_ne_tabMapPathFlat home port' tid' b port a
    have hRTt : refCachePath home port' tid' b
        ≠ tmpName (tabMapPath home port a) hex := by
      rw [hfb, hga]
      exact fun e => tmpName_ne_refCachePathFlat _ hex home port' tid' b e.symm
    rw [loadRefs, loadRefs, saveTabMap, atomicWrite_frame _ _ _ _ _ hRT hRTt]

/-- Witness for C9 at concrete inputs: a write for one tab is invisible to
another tab on the same port, and to another port's tab map. -/
theorem c9_per_triple_isolation_witness :
    loadRefs (fun s => some s) "/h"
      (saveRefs (fun s : String => s) "/h" fsEmpty 9 "TAB_ONE_XYZ" "D" none "ff")
      9 "TAB_TWO_XYZ" none = none
    ∧ loadTabMap (fun s => some s) "/h"
      (saveTabMap (fun s : String => s) "/h" fsEmpty 7 "M" none "ff")
      8 none = none := by
  have h := c9_per_triple_isolation (fun s => some s) (fun s : String => s)
    (fun s => some s) (fun s : String => s) "/h" (by decide) none none
    (by intro s hs; simp [normLabel] at hs) (by intro s hs; simp [normLabel] at hs)
    9 9 "TAB_ONE_XYZ" "TAB_TWO_XYZ" (by decide) (by decide) fsEmpty "D" "M" "ff"
  have h2 := c9_per_triple_isolation (fun s => some s) (fun s : String => s)
    (fun s => some s) (fun s : String => s) "/h" (by decide) none none
    (by intro s hs; simp [normLabel] at hs) (by intro s hs; simp [normLabel] at hs)
    7 8 "X" "X" (by decide) (by decide) fsEmpty "D" "M" "ff"
  constructor
  · rw [h.1 (Or.inr (Or.inr (by decide)))]
    rfl
  · rw [h2.2.1 (Or.inr (by decide))]
    rfl

/-! ### Claim C10: `@`/`ref=` prefix interchangeability in resolveRef -/


theorem isPrefixOf_append (l m : List Char) : l.isPrefixOf (l ++ m) = true := by
  induction l with
  | nil => cases m <;> rfl
  | cons c cs ih => simp [List.isPrefixOf, ih]

theorem jsStartsWith_prefix (p k : String) : jsStartsWith (p ++ k) p = true := by
  simp only [jsStartsWith, String.data_append]
  exact isPrefixOf_append _ _

theorem at_drop (k : String) : ("@" ++ k).drop 1 = k := by
  rw [String.drop_eq]
  rfl

theorem ref_drop (k : String) : ("ref=" ++ k).drop 4 = k := by
  rw [String.drop_eq]
  rfl

theorem ref_not_at (k : String) : jsStartsWith ("ref=" ++ k) "@" = false := rfl

/-- C10 counterexample: a ref key that itself begins with `@` is present in
the table, yet `resolveRef` on exactly that key fails (the stripping turns
`"@a"` into `"a"`), so the three forms are not interchangeable for every
present key. -/
theorem c10_counterexample :
    ("@a", (⟨1, "button", "B"⟩ : RefEntry))
        ∈ ([("@a", (⟨1, "button", "B"⟩ : RefEntry))] : List (String × RefEntry))
    ∧ resolveRefTable [("@a", ⟨1, "button", "B"⟩)] "@a"
        = Except.error (refNotFoundMsg "@a" ["@a"]) := by
  exact ⟨List.mem_singleton.2 rfl, rfl⟩

/-- C10 (amended): for every ref table and key `k` that does not itself
begin with `@` or `ref=`, the three argument forms `k`, `"@" ++ k` and
`"ref=" ++ k` resolve to the identical entry when `k` is present, and all
three fail with the ref-not-found error over the same available-ref list
(each echoing its own original argument) when `k` is absent. -/
theorem c10_resolveRef_prefix_equiv (refs : List (String × RefEntry))
    (k : String) (hk1 : jsStartsWith k "@" = false)
    (hk2 : jsStartsWith k "ref=" = false) :
    (∀ e : RefEntry,
      (refs.find? (fun kv => kv.1 == k)).map (fun kv => kv.2) = some e →
      resolveRefTable refs k = Except.ok e
      ∧ resolveRefTable refs ("@" ++ k) = Except.ok e
      ∧ resolveRefTable refs ("ref=" ++ k) = Except.ok e)
    ∧ ((refs.find? (fun kv => kv.1 == k)).map (fun kv => kv.2) = none →
      resolveRefTable refs k
        = Except.error (refNotFoundMsg k (refs.map (fun kv => kv.1)))
      ∧ resolveRefTable refs ("@" ++ k)
        = Except.error (refNotFoundMsg ("@" ++ k) (refs.map (fun kv => kv.1)))
      ∧ resolveRefTable refs ("ref=" ++ k)
        = Except.error (refNotFoundMsg ("ref=" ++ k) (refs.map (fun kv => kv.1)))) := by
  have hat : jsStartsWith ("@" ++ k) "@" = true := jsStartsWith_prefix "@" k
  have href : jsStartsWith ("ref=" ++ k) "ref=" = true := jsStartsWith_prefix "ref=" k
  constructor
  · intro e he
    refine ⟨?_, ?_, ?_⟩
    · simp [resolveRefTable, hk1, hk2, he]
    · simp [resolveRefTable, hat, at_drop, hk2, he]
    · simp [resolveRefTable, ref_not_at, href, ref_drop, he]
  · intro he
    refine ⟨?_, ?_, ?_⟩
    · simp [resolveRefTable, hk1, hk2, he]
    · simp [resolveRefTable, hat, at_drop, hk2, he]
    · simp [resolveRefTable, ref_not_at, href, ref_drop, he]

/-- Witness for C10 at concrete inputs: `e5`, `@e5` and `ref=e5` all return
the same cached entry. -/
theorem c10_resolveRef_prefix_equiv_witness :
    resolveRefTable [("e5", (⟨7, "link", "L"⟩ : RefEntry))] "e5"
        = Except.ok (⟨7, "link", "L"⟩ : RefEntry)
    ∧ resolveRefTable [("e5", (⟨7, "link", "L"⟩ : RefEntry))] "@e5"
        = Except.ok (⟨7, "link", "L"⟩ : RefEntry)
    ∧ resolveRefTable [("e5", (⟨7, "link", "L"⟩ : RefEntry))] "ref=e5"
        = Except.ok (⟨7, "link", "L"⟩ : RefEntry) := by
  have h := (c10_resolveRef_prefix_equiv
    [("e5", (⟨7, "link", "L"⟩ : RefEntry))] "e5" rfl rfl).1
    ⟨7, "link", "L"⟩ rfl
  exact ⟨h.1, h.2.1, h.2.2⟩

/-! ### JS-object lemmas for the tab map -/


theorem objUpd_of_not_has (m : List (String × String)) (k v : String)
    (h : objHas m k = false) : objUpd m k v = m := by
  induction m with
  | nil => rfl
  | cons e rest ih =>
    rw [objHas] at h
    rcases Bool.or_eq_false_iff.mp h with ⟨h1, h2⟩
    have he : ¬ e.1 = k := by simpa using h1
    rw [objUpd, if_neg he, ih h2]

theorem objGet_objUpd_ne (m : List (String × String)) (k v k' : String)
    (h : k' ≠ k) : objGet (objUpd m k v) k' = objGet m k' := by
  induction m with
  | nil => rfl
  | cons e rest ih =>
    by_cases he : e.1 = k
    · rw [objUpd, if_pos he, objGet, if_neg (fun e2 => h e2.symm), ih,
        objGet, if_neg (by rw [he]; exact fun e2 => h e2.symm)]
    · rw [objUpd, if_neg he, objGet, objGet, ih]

theorem objGet_objUpd_self (m : List (String × String)) (k v : String)
    (h : objHas m k = true) : objGet (objUpd m k v) k = some v := by
  induction m with
  | nil => simp [objHas] at h
  | cons e rest ih =>
    by_cases he : e.1 = k
    · rw [objUpd, if_pos he, objGet, if_pos rfl]
    · rw [objHas] at h
      rcases Bool.or_eq_true_iff.mp h with h1 | h2
      · exact absurd (by simpa using h1) he
      · rw [objUpd, if_neg he, objGet, if_neg he, ih h2]

theorem objGet_append (m1 m2 : List (String × String)) (k : String) :
    objGet (m1 ++ m2) k
      = match objGet m1 k with
        | some v => some v
        | none => objGet m2 k := by
  induction m1 with
  | nil => rfl
  | cons e rest ih =>
    by_cases he : e.1 = k
    · rw [List.cons_append, objGet, if_pos he, objGet, if_pos he]
    · rw [List.cons_append, objGet, if_neg he, objGet, if_neg he, ih]

theorem objGet_eq_none_of_not_has (m : List (String × String)) (k : String)
    (h : objHas m k = false) : objGet m k = none := by
  induction m with
  | nil => rfl
  | cons e rest ih =>
    rw [objHas] at h
    rcases Bool.or_eq_false_iff.mp h with ⟨h1, h2⟩
    rw [objGet, if_neg (by simpa using h1), ih h2]

/-- Reading from a JS object after an assignment. -/
theorem objGet_objSet (m : List (String × String)) (k v k' : String) :
    objGet (objSet m k v) k' = if k' = k then some v else objGet m k' := by
  by_cases hhas : objHas m k
  · rw [objSet, if_pos hhas]
    by_cases hk : k' = k
    · rw [if_pos hk, hk, objGet_objUpd_self m k v hhas]
    · rw [if_neg hk, objGet_objUpd_ne m k v k' hk]
  · rw [objSet, if_neg hhas, objGet_append]
    by_cases hk : k' = k
    · rw [if_pos hk, hk,
        objGet_eq_none_of_not_has m k (Bool.of_not_eq_true hhas),
        objGet, if_pos rfl]
    · rw [if_neg hk]
      cases hg : objGet m k' with
      | some v2 => rfl
      | none => rw [objGet, if_neg (fun e2 => hk e2.symm), objGet]

/-! ### Reverse-map, counter and parse lemmas for the tab map -/


theorem revMap_append (m : List (String × String)) (e : String × String) :
    revMap (m ++ [e])
      = if jsStartsWith e.1 "t" then objSet (revMap m) e.2 e.1 else revMap m := by
  rw [revMap, revMap, List.foldl_append]
  rfl

/-- Anything the reverse map returns came from a `t`-prefixed entry of the
old map, as `(shortId, targetId)` reversed. -/
theorem revMap_mem :
    ∀ (m : List (String × String)) (v k : String),
      objGet (revMap m) v = some k → (k, v) ∈ m ∧ jsStartsWith k "t" = true := by
  intro m
  induction m using List.reverseRecOn with
  | nil => intro v k h; simp [revMap, objGet] at h
  | append_singleton m e ih =>
    intro v k h
    rw [revMap_append] at h
    by_cases hp : jsStartsWith e.1 "t"
    · rw [if_pos hp, objGet_objSet] at h
      by_cases hv : v = e.2
      · rw [if_pos hv] at h
        have hk : k = e.1 := (Option.some.inj h).symm
        refine ⟨?_, by rw [hk]; exact hp⟩
        apply List.mem_append.2
        right
        rw [hk, hv]
        exact List.mem_singleton.2 rfl
      · rw [if_neg hv] at h
        have := ih v k h
        exact ⟨List.mem_append.2 (Or.inl this.1), this.2⟩
    · rw [if_neg hp] at h
      have := ih v k h
      exact ⟨List.mem_append.2 (Or.inl this.1), this.2⟩

/-- When the `t`-prefixed values are distinct, the reverse map inverts every
`t`-prefixed entry. -/
theorem revMap_lookup :
    ∀ (m : List (String × String)) (k v : String), (tVals m).Nodup →
      (k, v) ∈ m → jsStartsWith k "t" = true → objGet (revMap m) v = some k := by
  intro m
  induction m using List.reverseRecOn with
  | nil => intro k v _ hmem; simp at hmem
  | append_singleton m e ih =>
    intro k v hnd hmem hk
    have hfilter : tVals (m ++ [e])
        = tVals m ++ (if jsStartsWith e.1 "t" then [e.2] else []) := by
      rw [tVals, tVals, List.filter_append]
      by_cases hp : jsStartsWith e.1 "t"
      · simp [hp]
      · simp [hp]
    rw [revMap_append]
    rcases List.mem_append.1 hmem with hin | hsing
    · by_cases hp : jsStartsWith e.1 "t"
      · rw [if_pos hp, objGet_objSet]
        have hvnd : (tVals m ++ [e.2]).Nodup := by
          rw [hfilter, if_pos hp] at hnd
          exact hnd
        have hvmem : v ∈ tVals m := by
          rw [tVals]
          exact List.mem_map.2 ⟨(k, v), List.mem_filter.2 ⟨hin, hk⟩, rfl⟩
        have hvne : ¬ v = e.2 := by
          intro e2
          have := (List.nodup_append.mp hvnd).2.2
          exact this hvmem (by rw [e2]; exact List.mem_singleton.2 rfl)
        rw [if_neg hvne]
        exact ih k v (by
          rw [hfilter, if_pos hp] at hnd
          exact (List.nodup_append.mp hnd).1) hin hk
      · rw [if_neg hp]
        exact ih k v (by rw [hfilter, if_neg hp, List.append_nil] at hnd; exact hnd)
          hin hk
    · rcases List.mem_singleton.1 hsing with rfl
      rw [if_pos hk, objGet_objSet, if_pos rfl]

/-- In a map with distinct keys, a key determines its value. -/
theorem keys_nodup_val_unique :
    ∀ (m : List (String × String)), (m.map Prod.fst).Nodup →
      ∀ (k v1 v2 : String), (k, v1) ∈ m → (k, v2) ∈ m → v1 = v2 := by
  intro m
  induction m with
  | nil => intro _ k v1 v2 h1; simp at h1
  | cons e rest ih =>
    intro hnd k v1 v2 h1 h2
    rw [List.map_cons, List.nodup_cons] at hnd
    rcases List.mem_cons.1 h1 with he1 | hr1 <;> rcases List.mem_cons.1 h2 with he2 | hr2
    · exact congrArg Prod.snd (he1.trans he2.symm)
    · exfalso
      apply hnd.1
      have hk1 : e.1 = k := congrArg Prod.fst he1.symm
      rw [hk1]
      exact List.mem_map.2 ⟨(k, v2), hr2, rfl⟩
    · exfalso
      apply hnd.1
      have hk1 : e.1 = k := congrArg Prod.fst he2.symm
      rw [hk1]
      exact List.mem_map.2 ⟨(k, v1), hr1, rfl⟩
    · exact ih hnd.2 k v1 v2 hr1 hr2

theorem nextNum_ge :
    ∀ (m : List (String × String)) (a : Nat),
      a ≤ m.foldl (fun acc kv =>
        match parseTNum kv.1 with
        | some v => max acc (v + 1)
        | none => acc) a := by
  intro m
  induction m with
  | nil => intro a; simp
  | cons e rest ih =>
    intro a
    rw [List.foldl_cons]
    refine le_trans ?_ (ih _)
    cases parseTNum e.1 with
    | none => simp
    | some v => simp [Nat.le_max_left]

/-- Every numeric `t`-suffix among the map's keys is below the computed
next number. -/
theorem nextNum_bound :
    ∀ (m : List (String × String)) (a : Nat) (e : String × String), e ∈ m →
      ∀ num, parseTNum e.1 = some num →
      num < m.foldl (fun acc kv =>
        match parseTNum kv.1 with
        | some v => max acc (v + 1)
        | none => acc) a := by
  intro m
  induction m with
  | nil => intro a e he; simp at he
  | cons f rest ih =>
    intro a e he num hp
    rw [List.foldl_cons]
    rcases List.mem_cons.1 he with rfl | hin
    · refine lt_of_lt_of_le ?_ (nextNum_ge rest _)
      rw [hp]
      simp [Nat.lt_succ_self, Nat.le_max_right]
    · exact ih _ e hin num hp

/-- The keys a spent counter produces parse back to their number. -/
theorem parseTNum_tRepr (num : Nat) :
    parseTNum ("t" ++ Nat.repr num) = some num := by
  have hdata : ("t" ++ Nat.repr num).data = 't' :: (Nat.repr num).data := rfl
  rw [parseTNum, hdata]
  have hcond : 't' = 't' ∧ (Nat.repr num).data ≠ []
      ∧ ((Nat.repr num).data.all (fun d => d.isDigit)) = true :=
    ⟨rfl, repr_ne_nil num, List.all_eq_true.2 (fun d hd => repr_isDigit num d hd)⟩
  show (if 't' = 't' ∧ (Nat.repr num).data ≠ []
      ∧ ((Nat.repr num).data.all (fun d => d.isDigit)) = true
    then some (digitsVal (Nat.repr num).data) else none) = some num
  rw [if_pos hcond, digitsVal_repr]

/-- Short ids produced by the counter are injective in the number. -/
theorem tRepr_inj {a b : Nat} (h : "t" ++ Nat.repr a = "t" ++ Nat.repr b) :
    a = b := by
  have hd := congrArg String.data h
  simp only [String.data_append] at hd
  exact repr_injective (String.ext (List.append_cancel_left hd))

theorem objHas_false_iff (m : List (String × String)) (k : String) :
    objHas m k = false ↔ k ∉ m.map Prod.fst := by
  induction m with
  | nil => simp [objHas]
  | cons e rest ih =>
    rw [objHas, Bool.or_eq_false_iff]
    simp only [List.map_cons, List.mem_cons, not_or, decide_eq_false_iff_not, ih]
    constructor
    · rintro ⟨h1, h2⟩
      exact ⟨fun e2 => h1 e2.symm, h2⟩
    · rintro ⟨h1, h2⟩
      exact ⟨fun e2 => h1 e2.symm, h2⟩

/-- The reconciliation loop invariant: target order is preserved, the new
map records exactly the emitted (shortId, targetId) pairs, every emitted tab
either reuses its reverse-mapped short id or receives a fresh
`t<m>` with `nn0 ≤ m` below the final counter, short ids stay distinct, and
the counter never decreases. -/
theorem tabsLoop_spec (rev : List (String × String)) (nn0 : Nat)
    (hrevB : ∀ v k num, objGet rev v = some k → parseTNum k = some num →
      num < nn0)
    (hrevI : ∀ v1 v2 k, objGet rev v1 = some k → objGet rev v2 = some k →
      v1 = v2) :
    ∀ (ts : List Target) (nn : Nat) (nm : List (String × String))
      (tabs : List Tab),
      nn0 ≤ nn →
      ((tabs.map (fun tb => tb.targetId)) ++ (ts.map Target.id)).Nodup →
      nm = tabs.map (fun tb => (tb.shortId, tb.targetId)) →
      (∀ tb ∈ tabs, objGet rev tb.targetId = some tb.shortId ∨
        (objGet rev tb.targetId = none ∧
          ∃ m, tb.shortId = "t" ++ Nat.repr m ∧ nn0 ≤ m ∧ m < nn)) →
      (tabs.map (fun tb => tb.shortId)).Nodup →
      ((tabsLoop rev ts nn nm tabs).1.map (fun tb => tb.targetId)
          = tabs.map (fun tb => tb.targetId) ++ ts.map Target.id)
      ∧ (tabsLoop rev ts nn nm tabs).2.1
          = (tabsLoop rev ts nn nm tabs).1.map
              (fun tb => (tb.shortId, tb.targetId))
      ∧ (∀ tb ∈ (tabsLoop rev ts nn nm tabs).1,
          objGet rev tb.targetId = some tb.shortId ∨
          (objGet rev tb.targetId = none ∧
            ∃ m, tb.shortId = "t" ++ Nat.repr m ∧ nn0 ≤ m
              ∧ m < (tabsLoop rev ts nn nm tabs).2.2))
      ∧ ((tabsLoop rev ts nn nm tabs).1.map (fun tb => tb.shortId)).Nodup
      ∧ nn ≤ (tabsLoop rev ts nn nm tabs).2.2 := by
  intro ts
  induction ts with
  | nil =>
    intro nn nm tabs h1 h5 h2 h3 h4
    refine ⟨by simp [tabsLoop], by simp [tabsLoop, h2], ?_, by simp [tabsLoop, h4],
      by simp [tabsLoop]⟩
    intro tb htb
    rcases h3 tb (by simpa [tabsLoop] using htb) with h | ⟨hn, m, hm, hm0, hmlt⟩
    · exact Or.inl h
    · exact Or.inr ⟨hn, m, hm, hm0, by simpa [tabsLoop] using hmlt⟩
  | cons tg rest ih =>
    intro nn nm tabs h1 h5 h2 h3 h4
    cases hlook : objGet rev tg.id with
    | some s =>
      have hstep : tabsLoop rev (tg :: rest) nn nm tabs
          = tabsLoop rev rest nn (objSet nm s tg.id)
              (tabs ++ [⟨s, tg.id, tg.title, tg.url⟩]) := by
        rw [tabsLoop, hlook]
      have hsnot : s ∉ tabs.map (fun tb => tb.shortId) := by
        intro hmem
        rcases List.mem_map.1 hmem with ⟨tb, htb, hts⟩
        rcases h3 tb htb with hre | ⟨_, m, hm, hm0, _⟩
        · rw [hts] at hre
          have := hrevI tb.targetId tg.id s hre hlook
          have hdis := (List.nodup_append.mp h5).2.2
          exact hdis (List.mem_map.2 ⟨tb, htb, rfl⟩)
            (by rw [List.map_cons, this]; exact List.mem_cons_self _ _)
        · have hps : parseTNum s = some m := by
            rw [← hts, hm]; exact parseTNum_tRepr m
          have := hrevB tg.id s m hlook hps
          omega
      have hhas : objHas nm s = false := by
        rw [objHas_false_iff, h2]
        intro hmem
        apply hsnot
        rcases List.mem_map.1 hmem with ⟨p, hp, hps⟩
        rcases List.mem_map.1 hp with ⟨tb, htb, rfl⟩
        exact List.mem_map.2 ⟨tb, htb, by rw [← hps]⟩
      have hset : objSet nm s tg.id = nm ++ [(s, tg.id)] := by
        rw [objSet, if_neg (by rw [hhas]; exact Bool.false_ne_true)]
      have hih := ih nn (objSet nm s tg.id) (tabs ++ [⟨s, tg.id, tg.title, tg.url⟩])
        h1
        (by simpa using h5)
        (by rw [hset, h2]; simp)
        (by
          intro tb htb
          rcases List.mem_append.1 htb with hin | hsing
          · exact h3 tb hin
          · rcases List.mem_singleton.1 hsing with rfl
            exact Or.inl hlook)
        (by
          rw [List.map_append]
          refine List.nodup_append.2 ⟨h4, by simp, ?_⟩
          intro x hx hx2
          rcases List.mem_singleton.1 (by simpa using hx2) with rfl
          exact hsnot hx)
      rw [hstep]
      refine ⟨?_, hih.2.1, hih.2.2.1, hih.2.2.2.1, hih.2.2.2.2⟩
      rw [hih.1]
      simp
    | none =>
      have hstep : tabsLoop rev (tg :: rest) nn nm tabs
          = tabsLoop rev rest (nn + 1)
              (objSet nm ("t" ++ Nat.repr nn) tg.id)
              (tabs ++ [⟨"t" ++ Nat.repr nn, tg.id, tg.title, tg.url⟩]) := by
        rw [tabsLoop, hlook]
      have hsnot : ("t" ++ Nat.repr nn) ∉ tabs.map (fun tb => tb.shortId) := by
        intro hmem
        rcases List.mem_map.1 hmem with ⟨tb, htb, hts⟩
        rcases h3 tb htb with hre | ⟨_, m, hm, hm0, hmlt⟩
        · rw [hts] at hre
          have := hrevB tb.targetId ("t" ++ Nat.repr nn) nn hre (parseTNum_tRepr nn)
          omega
        · rw [hm] at hts
          have := tRepr_inj hts
          omega
      have hhas : objHas nm ("t" ++ Nat.repr nn) = false := by
        rw [objHas_false_iff, h2]
        intro hmem
        apply hsnot
        rcases List.mem_map.1 hmem with ⟨p, hp, hps⟩
        rcases List.mem_map.1 hp with ⟨tb, htb, rfl⟩
        exact List.mem_map.2 ⟨tb, htb, by rw [← hps]⟩
      have hset : objSet nm ("t" ++ Nat.repr nn) tg.id
          = nm ++ [("t" ++ Nat.repr nn, tg.id)] := by
        rw [objSet, if_neg (by rw [hhas]; exact Bool.false_ne_true)]
      have hih := ih (nn + 1) (objSet nm ("t" ++ Nat.repr nn) tg.id)
        (tabs ++ [⟨"t" ++ Nat.repr nn, tg.id, tg.title, tg.url⟩])
        (by omega)
        (by simpa using h5)
        (by rw [hset, h2]; simp)
        (by
          intro tb htb
          rcases List.mem_append.1 htb with hin | hsing
          · rcases h3 tb hin with hre | ⟨hn2, m, hm, hm0, hmlt⟩
            · exact Or.inl hre
            · exact Or.inr ⟨hn2, m, hm, hm0, by omega⟩
          · rcases List.mem_singleton.1 hsing with rfl
            exact Or.inr ⟨hlook, nn, rfl, h1, by omega⟩)
        (by
          rw [List.map_append]
          refine List.nodup_append.2 ⟨h4, by simp, ?_⟩
          intro x hx hx2
          rcases List.mem_singleton.1 (by simpa using hx2) with rfl
          exact hsnot hx)
      rw [hstep]
      refine ⟨?_, hih.2.1, hih.2.2.1, hih.2.2.2.1, by
        have := hih.2.2.2.2
        omega⟩
      rw [hih.1]
      simp

/-- When every raw target is known to the reverse map, the loop returns
exactly the looked-up short ids, in input order. -/
theorem tabsLoop_allHit (rev : List (String × String)) :
    ∀ (ts : List Target) (nn : Nat) (nm : List (String × String))
      (tabs : List Tab),
      (∀ tg ∈ ts, (objGet rev tg.id).isSome = true) →
      (tabsLoop rev ts nn nm tabs).1
        = tabs ++ ts.map (fun tg =>
            ⟨(objGet rev tg.id).getD "", tg.id, tg.title, tg.url⟩) := by
  intro ts
  induction ts with
  | nil => intro nn nm tabs _; simp [tabsLoop]
  | cons tg rest ih =>
    intro nn nm tabs hhit
    have hsome := hhit tg (List.mem_cons_self _ _)
    obtain ⟨s, hs⟩ := Option.isSome_iff_exists.1 hsome
    rw [tabsLoop, hs,
      ih _ _ _ (fun tg2 h2 => hhit tg2 (List.mem_cons_of_mem _ h2))]
    simp [hs]

/-- The `__last` carry-over appends at most a non-`t` sentinel entry. -/
theorem carryLast_facts (m0 nm : List (String × String))
    (hpre : ∀ p ∈ nm, jsStartsWith p.1 "t" = true) :
    (∀ p ∈ nm, p ∈ carryLast m0 nm) ∧ tVals (carryLast m0 nm) = tVals nm := by
  have hhas : objHas nm "__last" = false := by
    rw [objHas_false_iff]
    intro hmem
    rcases List.mem_map.1 hmem with ⟨p, hp, hps⟩
    have := hpre p hp
    rw [hps] at this
    exact absurd this (by decide)
  cases hg : objGet m0 "__last" with
  | none =>
    have heq : carryLast m0 nm = nm := by simp only [carryLast, hg]
    rw [heq]
    exact ⟨fun p hp => hp, rfl⟩
  | some l =>
    by_cases hc : l ≠ "" ∧ truthy (objGet nm l) = true
    · have heq : carryLast m0 nm = nm ++ [("__last", l)] := by
        simp only [carryLast, hg]
        rw [if_pos hc, objSet, if_neg (by rw [hhas]; exact Bool.false_ne_true)]
      rw [heq]
      constructor
      · intro p hp
        exact List.mem_append.2 (Or.inl hp)
      · rw [tVals, tVals, List.filter_append]
        have hf : List.filter (fun kv => jsStartsWith kv.1 "t")
            ([("__last", l)] : List (String × String)) = [] := by
          have hns : jsStartsWith ("__last", l).1 "t" = false := by
            have h0 : jsStartsWith "__last" "t" = false := by decide
            exact h0
          rw [List.filter_cons, if_neg (by rw [hns]; exact Bool.false_ne_true)]
          rfl
        rw [hf, List.append_nil]
    · have heq : carryLast m0 nm = nm := by
        simp only [carryLast, hg]
        rw [if_neg hc]
      rw [heq]
      exact ⟨fun p hp => hp, rfl⟩

theorem getTabsPure_fst (ts : List Target) (m : List (String × String)) :
    (getTabsPure ts m).1
      = (tabsLoop (revMap m) ts (nextNumOf m) [] []).1 := rfl

theorem getTabsPure_snd (ts : List Target) (m : List (String × String)) :
    (getTabsPure ts m).2
      = carryLast m (tabsLoop (revMap m) ts (nextNumOf m) [] []).2.1 := rfl

/-- Combined facts about one `getTabs` reconciliation over a well-formed
persisted map (distinct keys, as any JSON object has) and a duplicate-free
raw target list. -/
theorem getTabsPure_call1 (m0 : List (String × String)) (ts : List Target)
    (hkeys : (m0.map Prod.fst).Nodup) (hids : (ts.map Target.id).Nodup) :
    ((getTabsPure ts m0).1.map (fun tb => tb.targetId) = ts.map Target.id)
    ∧ ((getTabsPure ts m0).1.map (fun tb => tb.shortId)).Nodup
    ∧ (∀ tb ∈ (getTabsPure ts m0).1,
        (tb.shortId, tb.targetId) ∈ (getTabsPure ts m0).2
        ∧ jsStartsWith tb.shortId "t" = true)
    ∧ (tVals (getTabsPure ts m0).2).Nodup
    ∧ (∀ tb ∈ (getTabsPure ts m0).1,
        objGet (revMap m0) tb.targetId = none →
        ∃ m, tb.shortId = "t" ++ Nat.repr m ∧ nextNumOf m0 ≤ m) := by
  have hrevB : ∀ v k num, objGet (revMap m0) v = some k →
      parseTNum k = some num → num < nextNumOf m0 := by
    intro v k num hv hp
    have hm := (revMap_mem m0 v k hv).1
    exact nextNum_bound m0 1 (k, v) hm num hp
  have hrevI : ∀ v1 v2 k, objGet (revMap m0) v1 = some k →
      objGet (revMap m0) v2 = some k → v1 = v2 := by
    intro v1 v2 k h1 h2
    exact keys_nodup_val_unique m0 hkeys k v1 v2 (revMap_mem m0 v1 k h1).1
      (revMap_mem m0 v2 k h2).1
  have hspec := tabsLoop_spec (revMap m0) (nextNumOf m0) hrevB hrevI ts
    (nextNumOf m0) [] [] le_rfl (by simpa using hids) rfl
    (by intro tb h; exact absurd h (List.not_mem_nil tb)) (by simp)
  obtain ⟨hG1, hG2, hG3, hG4, _⟩ := hspec
  have hpre : ∀ p ∈ (tabsLoop (revMap m0) ts (nextNumOf m0) [] []).2.1,
      jsStartsWith p.1 "t" = true := by
    intro p hp
    rw [hG2] at hp
    rcases List.mem_map.1 hp with ⟨tb, htb, rfl⟩
    rcases hG3 tb htb with hre | ⟨_, m, hm, _, _⟩
    · exact (revMap_mem m0 tb.targetId tb.shortId hre).2
    · rw [hm]
      exact jsStartsWith_prefix "t" (Nat.repr m)
  have hcarry := carryLast_facts m0 _ hpre
  have hprefix : ∀ tb ∈ (tabsLoop (revMap m0) ts (nextNumOf m0) [] []).1,
      jsStartsWith tb.shortId "t" = true := by
    intro tb htb
    rcases hG3 tb htb with hre | ⟨_, m, hm, _, _⟩
    · exact (revMap_mem m0 tb.targetId tb.shortId hre).2
    · rw [hm]
      exact jsStartsWith_prefix "t" (Nat.repr m)
  refine ⟨by rw [getTabsPure_fst, hG1]; simp, by rw [getTabsPure_fst]; exact hG4,
    ?_, ?_, ?_⟩
  · intro tb htb
    rw [getTabsPure_fst] at htb
    refine ⟨?_, hprefix tb htb⟩
    rw [getTabsPure_snd]
    exact hcarry.1 _ (by rw [hG2]; exact List.mem_map.2 ⟨tb, htb, rfl⟩)
  · rw [getTabsPure_snd, hcarry.2, tVals,
      List.filter_eq_self.2 (fun p hp => hpre p hp), hG2]
    rw [List.map_map]
    have : ((fun kv => kv.2) ∘ fun tb => (tb.shortId, tb.targetId))
        = fun tb : Tab => tb.targetId := rfl
    rw [this, hG1]
    simpa using hids
  · intro tb htb hnone
    rw [getTabsPure_fst] at htb
    rcases hG3 tb htb with hre | ⟨_, m, hm, hm0, _⟩
    · rw [hnone] at hre
      exact absurd hre (by simp)
    · exact ⟨m, hm, hm0⟩

/-! ### Claim C5: short-id suffixes are never reissued (amended) -/


/-- C5 counterexample: target TGT_A gets `t1` in call 1; it is absent in
call 2, after which the persisted map is empty; reintroduced in call 3 it is
issued the fresh short id `t1` again — its old id, so a suffix number can be
reissued once its carrier has dropped out of the persisted map. -/
theorem c5_counterexample :
    ((getTabsPure [⟨"TGT_A", "A", "u"⟩] []).1.map (fun tb => tb.shortId)
      = ["t1"])
    ∧ ((getTabsPure [] (getTabsPure [⟨"TGT_A", "A", "u"⟩] []).2).2 = [])
    ∧ (objGet (revMap (getTabsPure []
        (getTabsPure [⟨"TGT_A", "A", "u"⟩] []).2).2) "TGT_A" = none)
    ∧ ((getTabsPure [⟨"TGT_A", "A", "u"⟩]
        (getTabsPure [] (getTabsPure [⟨"TGT_A", "A", "u"⟩] []).2).2).1.map
          (fun tb => tb.shortId) = ["t1"]) := by
  decide

/-- C5 (amended): within one reconciliation, short ids are pairwise
distinct, and every freshly issued short id is `t<m>` with `m` at least the
next-number derived from the previous persisted map — strictly above every
numeric suffix present there.  (A suffix whose every carrier has vanished
from the persisted map can be reissued, as the counterexample shows.) -/
theorem c5_fresh_suffixes (m0 : List (String × String)) (ts : List Target)
    (hkeys : (m0.map Prod.fst).Nodup) (hids : (ts.map Target.id).Nodup) :
    ((getTabsPure ts m0).1.map (fun tb => tb.shortId)).Nodup
    ∧ ∀ tb ∈ (getTabsPure ts m0).1,
        objGet (revMap m0) tb.targetId = none →
        ∃ m, tb.shortId = "t" ++ Nat.repr m ∧ nextNumOf m0 ≤ m
          ∧ ∀ e ∈ m0, ∀ num, parseTNum e.1 = some num → num < m := by
  obtain ⟨_, hB, _, _, hE⟩ := getTabsPure_call1 m0 ts hkeys hids
  refine ⟨hB, ?_⟩
  intro tb htb hnone
  obtain ⟨m, hm, hm0⟩ := hE tb htb hnone
  refine ⟨m, hm, hm0, ?_⟩
  intro e he num hp
  have := nextNum_bound m0 1 e he num hp
  have h2 : nextNumOf m0 = m0.foldl (fun acc kv =>
      match parseTNum kv.1 with
      | some v => max acc (v + 1)
      | none => acc) 1 := rfl
  omega

/-- Witness for C5 at concrete inputs: with `t5` persisted, a new target is
issued `t6`. -/
theorem c5_fresh_suffixes_witness :
    (((getTabsPure [⟨"TGT_B", "B", "u"⟩] [("t5", "TGT_A")]).1.map
      (fun tb => tb.shortId)).Nodup)
    ∧ ∀ tb ∈ (getTabsPure [⟨"TGT_B", "B", "u"⟩] [("t5", "TGT_A")]).1,
        objGet (revMap [("t5", "TGT_A")]) tb.targetId = none →
        ∃ m, tb.shortId = "t" ++ Nat.repr m
          ∧ nextNumOf [("t5", "TGT_A")] ≤ m
          ∧ ∀ e ∈ [("t5", "TGT_A")], ∀ num, parseTNum e.1 = some num →
              num < m :=
  c5_fresh_suffixes [("t5", "TGT_A")] [⟨"TGT_B", "B", "u"⟩]
    (by decide) (by decide)

/-! ### Claim C6: tab id stability across consecutive listings -/


/-- C6: if two consecutive `list` calls observe the same set of external
target ids (in any order), every target keeps the short id it had in the
first call. -/
theorem c6_tab_id_stability (m0 : List (String × String))
    (ts1 ts2 : List Target)
    (hkeys : (m0.map Prod.fst).Nodup)
    (hids1 : (ts1.map Target.id).Nodup)
    (hperm : (ts2.map Target.id).Perm (ts1.map Target.id)) :
    ∀ t2 ∈ (getTabsPure ts2 (getTabsPure ts1 m0).2).1,
      ∀ t1 ∈ (getTabsPure ts1 m0).1,
        t2.targetId = t1.targetId → t2.shortId = t1.shortId := by
  obtain ⟨hA, _, hC, hD, _⟩ := getTabsPure_call1 m0 ts1 hkeys hids1
  have hlk : ∀ t1 ∈ (getTabsPure ts1 m0).1,
      objGet (revMap (getTabsPure ts1 m0).2) t1.targetId = some t1.shortId := by
    intro t1 ht1
    exact revMap_lookup _ _ _ hD (hC t1 ht1).1 (hC t1 ht1).2
  have hhit : ∀ tg ∈ ts2,
      (objGet (revMap (getTabsPure ts1 m0).2) tg.id).isSome = true := by
    intro tg htg
    have hmem : tg.id ∈ ts1.map Target.id :=
      hperm.subset (List.mem_map.2 ⟨tg, htg, rfl⟩)
    rw [← hA] at hmem
    rcases List.mem_map.1 hmem with ⟨t1, ht1, hid⟩
    rw [← hid, hlk t1 ht1]
    rfl
  have htabs2 : (getTabsPure ts2 (getTabsPure ts1 m0).2).1
      = ts2.map (fun tg =>
          ⟨(objGet (revMap (getTabsPure ts1 m0).2) tg.id).getD "",
            tg.id, tg.title, tg.url⟩) := by
    rw [getTabsPure_fst, tabsLoop_allHit _ ts2 _ [] [] hhit]
    rfl
  intro t2 ht2 t1 ht1 heq
  rw [htabs2] at ht2
  rcases List.mem_map.1 ht2 with ⟨tg, htg, ht2eq⟩
  have hid2 : t2.targetId = tg.id := by rw [← ht2eq]
  have hsid : t2.shortId
      = (objGet (revMap (getTabsPure ts1 m0).2) tg.id).getD "" := by
    rw [← ht2eq]
  rw [hsid, ← hid2, heq, hlk t1 ht1]
  rfl

/-- Witness for C6 at concrete inputs: two targets listed in swapped order
keep their short ids. -/
theorem c6_tab_id_stability_witness :
    ((⟨"t1", "TGT_A", "A", "u"⟩ : Tab)
        ∈ (getTabsPure [⟨"TGT_B", "B", "u"⟩, ⟨"TGT_A", "A", "u"⟩]
            (getTabsPure [⟨"TGT_A", "A", "u"⟩, ⟨"TGT_B", "B", "u"⟩] []).2).1)
    ∧ ((⟨"t1", "TGT_A", "A", "u"⟩ : Tab)
        ∈ (getTabsPure [⟨"TGT_A", "A", "u"⟩, ⟨"TGT_B", "B", "u"⟩] []).1)
    ∧ (⟨"t1", "TGT_A", "A", "u"⟩ : Tab).shortId
        = (⟨"t1", "TGT_A", "A", "u"⟩ : Tab).shortId :=
  ⟨by decide, by decide,
    c6_tab_id_stability [] [⟨"TGT_A", "A", "u"⟩, ⟨"TGT_B", "B", "u"⟩]
      [⟨"TGT_B", "B", "u"⟩, ⟨"TGT_A", "A", "u"⟩]
      (by decide) (by decide) (by decide)
      ⟨"t1", "TGT_A", "A", "u"⟩ (by decide)
      ⟨"t1", "TGT_A", "A", "u"⟩ (by decide) rfl⟩

/-! ### Claim C2: ref ids are consecutive in visitation order -/


theorem eId_inj {a b : Nat} (h : eId a = eId b) : a = b := by
  have hd := congrArg String.data h
  simp only [eId, String.data_append] at hd
  exact repr_injective (String.ext (List.append_cancel_left hd))

/-- Gluing two consecutive ref-id blocks. -/
theorem refs_glue {n0 n1 n2 : Nat} (h01 : n0 ≤ n1) (h12 : n1 ≤ n2)
    {l1 l2 : List (String × RefEntry)}
    (h1 : l1.map Prod.fst = (List.range' (n0 + 1) (n1 - n0)).map eId)
    (h2 : l2.map Prod.fst = (List.range' (n1 + 1) (n2 - n1)).map eId) :
    (l1 ++ l2).map Prod.fst = (List.range' (n0 + 1) (n2 - n0)).map eId := by
  rw [List.map_append, h1, h2, ← List.map_append]
  congr 1
  have h := List.range'_append_1 (n0 + 1) (n1 - n0) (n2 - n1)
  rw [show (n0 + 1) + (n1 - n0) = n1 + 1 from by omega] at h
  rw [show (n2 - n1) + (n1 - n0) = n2 - n0 from by omega] at h
  exact h

mutual

/-- Within one render call, the appended ref entries carry exactly the ids
`e<k>` for the consecutive counter values spent by the call. -/
theorem renderNode_refs (node : AXNode) (opts : RenderOpts) (depth : Nat)
    (st : RState) :
    ∃ l, (renderNode node opts depth st).2.refs = st.refs ++ l
      ∧ l.map Prod.fst
        = (List.range' (st.n + 1) ((renderNode node opts depth st).2.n - st.n)).map eId
      ∧ st.n ≤ (renderNode node opts depth st).2.n := by
  rcases node with ⟨role, rawRole, name, value, bid, props, children⟩
  by_cases hskip : SKIP_ROLES.contains rawRole = true
  · by_cases hroot : (rawRole == "RootWebArea") = true
    · have heq : renderNode (.mk role rawRole name value bid props children)
          opts depth st = renderChildren children false opts depth st := by
        simp only [renderNode]
        rw [if_pos hskip, if_pos hroot]
      rw [heq]
      exact renderChildren_refs children false opts depth st
    · have heq : renderNode (.mk role rawRole name value bid props children)
          opts depth st = ([], st) := by
        simp only [renderNode]
        rw [if_pos hskip, if_neg hroot]
      rw [heq]
      exact ⟨[], by simp, by simp, le_rfl⟩
  · by_cases hdep : depthExceeded opts depth = true
    · have heq : renderNode (.mk role rawRole name value bid props children)
          opts depth st = ([], st) := by
        simp only [renderNode]
        rw [if_neg hskip, if_pos hdep]
      rw [heq]
      exact ⟨[], by simp, by simp, le_rfl⟩
    · by_cases hint : opts.interactive = true
      · by_cases hia : isInteractiveRole role = true
        · have heq : (renderNode (.mk role rawRole name value bid props children)
              opts depth st).2
              = ⟨st.refs ++ [("e" ++ Nat.repr (st.n + 1), ⟨bid, role, name⟩)],
                  st.n + 1⟩ := by
            simp only [renderNode]
            rw [if_neg hskip, if_neg hdep, if_pos hint, if_pos hia]
          rw [heq]
          refine ⟨[("e" ++ Nat.repr (st.n + 1), ⟨bid, role, name⟩)], rfl, ?_,
            Nat.le_succ st.n⟩
          have hc : (⟨st.refs ++ [("e" ++ Nat.repr (st.n + 1), ⟨bid, role, name⟩)],
              st.n + 1⟩ : RState).n - st.n = 1 := by
            show st.n + 1 - st.n = 1
            omega
          rw [hc]
          simp [eId]
        · have heq : renderNode (.mk role rawRole name value bid props children)
              opts depth st = renderChildren children false opts 0 st := by
            simp only [renderNode]
            rw [if_neg hskip, if_neg hdep, if_pos hint, if_neg hia]
          rw [heq]
          exact renderChildren_refs children false opts 0 st
      · by_cases hc6 : (opts.compact && (isStructuralRole role || role == "none")
            && name == "") = true
        · by_cases hmean : hasMeaningfulContent
              (.mk role rawRole name value bid props children) = true
          · have heq : renderNode (.mk role rawRole name value bid props children)
                opts depth st = renderChildren children false opts depth st := by
              simp only [renderNode]
              rw [if_neg hskip, if_neg hdep, if_neg hint, if_pos hc6, if_pos hmean]
            rw [heq]
            exact renderChildren_refs children false opts depth st
          · have heq : renderNode (.mk role rawRole name value bid props children)
                opts depth st = ([], st) := by
              simp only [renderNode]
              rw [if_neg hskip, if_neg hdep, if_neg hint, if_pos hc6, if_neg hmean]
            rw [heq]
            exact ⟨[], by simp, by simp, le_rfl⟩
        · by_cases htext : (role == "text") = true
          · have heq : (renderNode (.mk role rawRole name value bid props children)
                opts depth st).2 = st := by
              simp only [renderNode]
              rw [if_neg hskip, if_neg hdep, if_neg hint, if_neg hc6, if_pos htext]
              split
              · rfl
              · split
                · rfl
                · rfl
            rw [heq]
            exact ⟨[], by simp, by simp, le_rfl⟩
          · by_cases hshr : (isInteractiveRole role
                || (isContentRole role && !(name == ""))) = true
            · by_cases h1 : ((children.filter
                    (fun c => !(c.role == "text") || jsTrim c.name == "")).isEmpty
                  && !(children.filter
                    (fun c => c.role == "text" && !(jsTrim c.name == ""))).isEmpty
                  && !(isInteractiveRole role)) = true
              · have heq : (renderNode (.mk role rawRole name value bid props
                    children) opts depth st).2
                    = ⟨st.refs ++ [("e" ++ Nat.repr (st.n + 1), ⟨bid, role, name⟩)],
                        st.n + 1⟩ := by
                  simp only [renderNode]
                  rw [if_neg hskip, if_neg hdep, if_neg hint, if_neg hc6,
                    if_neg htext, if_pos hshr, if_pos h1]
                rw [heq]
                refine ⟨[("e" ++ Nat.repr (st.n + 1), ⟨bid, role, name⟩)], rfl, ?_,
                  Nat.le_succ st.n⟩
                have hc : (⟨st.refs ++ [("e" ++ Nat.repr (st.n + 1),
                    ⟨bid, role, name⟩)], st.n + 1⟩ : RState).n - st.n = 1 := by
                  show st.n + 1 - st.n = 1
                  omega
                rw [hc]
                simp [eId]
              · by_cases h2 : (!(value == "") && isInteractiveRole role) = true
                · have heq : (renderNode (.mk role rawRole name value bid props
                      children) opts depth st).2
                      = (renderChildren children true
                          (if opts.compact && !(name == "") then
                            { opts with parentName := some name } else opts)
                          (depth + 1)
                          ⟨st.refs ++ [("e" ++ Nat.repr (st.n + 1),
                            ⟨bid, role, name⟩)], st.n + 1⟩).2 := by
                    simp only [renderNode]
                    rw [if_neg hskip, if_neg hdep, if_neg hint, if_neg hc6,
                      if_neg htext, if_pos hshr, if_neg h1, if_pos h2]
                  rw [heq]
                  obtain ⟨l1, h1r, h1m, h1n⟩ := renderChildren_refs children true
                    (if opts.compact && !(name == "") then
                      { opts with parentName := some name } else opts) (depth + 1)
                    ⟨st.refs ++ [("e" ++ Nat.repr (st.n + 1), ⟨bid, role, name⟩)],
                      st.n + 1⟩
                  refine ⟨[("e" ++ Nat.repr (st.n + 1), ⟨bid, role, name⟩)] ++ l1,
                    ?_, ?_, by exact le_trans (Nat.le_succ st.n) h1n⟩
                  · rw [h1r]
                    exact List.append_assoc _ _ _
                  · refine refs_glue (Nat.le_succ st.n) h1n ?_ h1m
                    rw [show st.n + 1 - st.n = 1 from by omega]
                    simp [eId]
                · have heq : (renderNode (.mk role rawRole name value bid props
                      children) opts depth st).2
                      = (renderChildren children false
                          (if opts.compact && !(name == "") then
                            { opts with parentName := some name } else opts)
                          (depth + 1)
                          ⟨st.refs ++ [("e" ++ Nat.repr (st.n + 1),
                            ⟨bid, role, name⟩)], st.n + 1⟩).2 := by
                    simp only [renderNode]
                    rw [if_neg hskip, if_neg hdep, if_neg hint, if_neg hc6,
                      if_neg htext, if_pos hshr, if_neg h1, if_neg h2]
                  rw [heq]
                  obtain ⟨l1, h1r, h1m, h1n⟩ := renderChildren_refs children false
                    (if opts.compact && !(name == "") then
                      { opts with parentName := some name } else opts) (depth + 1)
                    ⟨st.refs ++ [("e" ++ Nat.repr (st.n + 1), ⟨bid, role, name⟩)],
                      st.n + 1⟩
                  refine ⟨[("e" ++ Nat.repr (st.n + 1), ⟨bid, role, name⟩)] ++ l1,
                    ?_, ?_, by exact le_trans (Nat.le_succ st.n) h1n⟩
                  · rw [h1r]
                    exact List.append_assoc _ _ _
                  · refine refs_glue (Nat.le_succ st.n) h1n ?_ h1m
                    rw [show st.n + 1 - st.n = 1 from by omega]
                    simp [eId]
            · by_cases h1 : ((children.filter
                    (fun c => !(c.role == "text") || jsTrim c.name == "")).isEmpty
                  && !(children.filter
                    (fun c => c.role == "text" && !(jsTrim c.name == ""))).isEmpty
                  && !(isInteractiveRole role)) = true
              · have heq : (renderNode (.mk role rawRole name value bid props
                    children) opts depth st).2 = st := by
                  simp only [renderNode]
                  rw [if_neg hskip, if_neg hdep, if_neg hint, if_neg hc6,
                    if_neg htext, if_neg hshr, if_pos h1]
                rw [heq]
                exact ⟨[], by simp, by simp, le_rfl⟩
              · by_cases h2 : (!(value == "") && isInteractiveRole role) = true
                · have heq : (renderNode (.mk role rawRole name value bid props
                      children) opts depth st).2
                      = (renderChildren children true
                          (if opts.compact && !(name == "") then
                            { opts with parentName := some name } else opts)
                          (depth + 1) st).2 := by
                    simp only [renderNode]
                    rw [if_neg hskip, if_neg hdep, if_neg hint, if_neg hc6,
                      if_neg htext, if_neg hshr, if_neg h1, if_pos h2]
                  rw [heq]
                  exact renderChildren_refs children true
                    (if opts.compact && !(name == "") then
                      { opts with parentName := some name } else opts) (depth + 1) st
                · have heq : (renderNode (.mk role rawRole name value bid props
                      children) opts depth st).2
                      = (renderChildren children false
                          (if opts.compact && !(name == "") then
                            { opts with parentName := some name } else opts)
                          (depth + 1) st).2 := by
                    simp only [renderNode]
                    rw [if_neg hskip, if_neg hdep, if_neg hint, if_neg hc6,
                      if_neg htext, if_neg hshr, if_neg h1, if_neg h2]
                  rw [heq]
                  exact renderChildren_refs children false
                    (if opts.compact && !(name == "") then
                      { opts with parentName := some name } else opts) (depth + 1) st

theorem renderChildren_refs (ns : List AXNode) (skipText : Bool)
    (opts : RenderOpts) (depth : Nat) (st : RState) :
    ∃ l, (renderChildren ns skipText opts depth st).2.refs = st.refs ++ l
      ∧ l.map Prod.fst
        = (List.range' (st.n + 1)
            ((renderChildren ns skipText opts depth st).2.n - st.n)).map eId
      ∧ st.n ≤ (renderChildren ns skipText opts depth st).2.n := by
  cases ns with
  | nil =>
    have heq : renderChildren [] skipText opts depth st = ([], st) := by
      simp [renderChildren]
    rw [heq]
    exact ⟨[], by simp, by simp, le_rfl⟩
  | cons c rest =>
    by_cases hsk : (skipText && c.role == "text") = true
    · have heq : (renderChildren (c :: rest) skipText opts depth st).2
          = (renderChildren rest skipText opts depth st).2 := by
        simp only [renderChildren]
        rw [if_pos hsk]
      rw [heq]
      exact renderChildren_refs rest skipText opts depth st
    · have heq : (renderChildren (c :: rest) skipText opts depth st).2
          = (renderChildren rest skipText opts depth
              (renderNode c opts depth st).2).2 := by
        simp only [renderChildren]
        rw [if_neg hsk]
      rw [heq]
      obtain ⟨l1, h1r, h1m, h1n⟩ := renderNode_refs c opts depth st
      obtain ⟨l2, h2r, h2m, h2n⟩ := renderChildren_refs rest skipText opts depth
        (renderNode c opts depth st).2
      refine ⟨l1 ++ l2, ?_, ?_, le_trans h1n h2n⟩
      · rw [h2r, h1r]
        exact List.append_assoc _ _ _
      · exact refs_glue h1n h2n h1m h2m

end

/-- C2: in a single render call (`snapshotRender`, any tree, any combination
of the interactiveOnly / compact / maxDepth knobs), the ref ids recorded in
the ref map are, in assignment = visitation order, exactly
`e1, e2, …, e<counter>` — ids of the form `e<N>` with `N` a positive integer,
strictly increasing, with no id assigned twice within the call. -/
theorem c2_ref_id_monotonicity (root : AXNode) (interactive compact : Bool)
    (maxDepth : Option Nat) :
    ((snapshotRender root interactive compact maxDepth).2.refs.map Prod.fst
      = (List.range' 1 (snapshotRender root interactive compact maxDepth).2.n).map eId)
    ∧ ((snapshotRender root interactive compact maxDepth).2.refs.map Prod.fst).Nodup := by
  obtain ⟨l, hr, hm, -⟩ :=
    renderNode_refs root ⟨interactive, compact, maxDepth, none⟩ 0 ⟨[], 0⟩
  have hr' : (snapshotRender root interactive compact maxDepth).2.refs = l := by
    rw [snapshotRender, hr]
    exact List.nil_append l
  have hm' : l.map Prod.fst
      = (List.range' 1 (snapshotRender root interactive compact maxDepth).2.n).map eId := by
    rw [snapshotRender]
    simpa using hm
  refine ⟨by rw [hr', hm'], ?_⟩
  rw [hr', hm']
  exact List.Nodup.map (fun a b h => eId_inj h) (List.nodup_range' _ _)

/-! ### Claim C3: interactive-only completeness -/


theorem depthExceeded_zero (opts : RenderOpts) : depthExceeded opts 0 = false := by
  cases h : opts.maxDepth <;> simp [depthExceeded, h]

theorem ilines_append (ms ns : List AXNode) (k : Nat) :
    ilines (ms ++ ns) k = ilines ms k ++ ilines ns (k + ms.length) := by
  induction ms generalizing k with
  | nil => simp [ilines]
  | cons m rest ih =>
    simp only [List.cons_append, ilines, List.length_cons]
    rw [show rest.append ns = rest ++ ns from rfl, ih]
    rw [show k + 1 + rest.length = k + (rest.length + 1) from by omega]

theorem irefs_append (ms ns : List AXNode) (k : Nat) :
    irefs (ms ++ ns) k = irefs ms k ++ irefs ns (k + ms.length) := by
  induction ms generalizing k with
  | nil => simp [irefs]
  | cons m rest ih =>
    simp only [List.cons_append, irefs, List.length_cons]
    rw [show rest.append ns = rest ++ ns from rfl, ih]
    rw [show k + 1 + rest.length = k + (rest.length + 1) from by omega]

mutual

/-- In interactiveOnly mode, a render call emits exactly one line and one
ref entry per maximal interactive node, in visitation order. -/
theorem renderNode_interactive (node : AXNode) (opts : RenderOpts) (st : RState)
    (hint : opts.interactive = true) :
    renderNode node opts 0 st
      = (ilines (topInteractive node) st.n,
         ⟨st.refs ++ irefs (topInteractive node) st.n,
          st.n + (topInteractive node).length⟩) := by
  rcases node with ⟨role, rawRole, name, value, bid, props, children⟩
  by_cases hskip : SKIP_ROLES.contains rawRole = true
  · by_cases hroot : (rawRole == "RootWebArea") = true
    · have heq : renderNode (.mk role rawRole name value bid props children)
          opts 0 st = renderChildren children false opts 0 st := by
        simp only [renderNode]
        rw [if_pos hskip, if_pos hroot]
      have ht : topInteractive (.mk role rawRole name value bid props children)
          = topInteractiveList children := by
        simp only [topInteractive]
        rw [if_pos hskip, if_pos hroot]
      rw [heq, ht]
      exact renderChildren_interactive children opts st hint
    · have heq : renderNode (.mk role rawRole name value bid props children)
          opts 0 st = ([], st) := by
        simp only [renderNode]
        rw [if_pos hskip, if_neg hroot]
      have ht : topInteractive (.mk role rawRole name value bid props children)
          = [] := by
        simp only [topInteractive]
        rw [if_pos hskip, if_neg hroot]
      rw [heq, ht]
      simp [ilines, irefs]
  · by_cases hia : isInteractiveRole role = true
    · have heq : renderNode (.mk role rawRole name value bid props children)
          opts 0 st
          = ([interactiveLine (.mk role rawRole name value bid props children)
                (eId (st.n + 1))],
             ⟨st.refs ++ [(eId (st.n + 1), ⟨bid, role, name⟩)], st.n + 1⟩) := by
        simp only [renderNode]
        rw [if_neg hskip, if_neg (by rw [depthExceeded_zero opts]; simp),
          if_pos hint, if_pos hia]
        rfl
      have ht : topInteractive (.mk role rawRole name value bid props children)
          = [.mk role rawRole name value bid props children] := by
        simp only [topInteractive]
        rw [if_neg hskip, if_pos hia]
      rw [heq, ht]
      simp [ilines, irefs, AXNode.backendDOMNodeId, AXNode.role, AXNode.name]
    · have heq : renderNode (.mk role rawRole name value bid props children)
          opts 0 st = renderChildren children false opts 0 st := by
        simp only [renderNode]
        rw [if_neg hskip, if_neg (by rw [depthExceeded_zero opts]; simp),
          if_pos hint, if_neg hia]
      have ht : topInteractive (.mk role rawRole name value bid props children)
          = topInteractiveList children := by
        simp only [topInteractive]
        rw [if_neg hskip, if_neg hia]
      rw [heq, ht]
      exact renderChildren_interactive children opts st hint

theorem renderChildren_interactive (ns : List AXNode) (opts : RenderOpts)
    (st : RState) (hint : opts.interactive = true) :
    renderChildren ns false opts 0 st
      = (ilines (topInteractiveList ns) st.n,
         ⟨st.refs ++ irefs (topInteractiveList ns) st.n,
          st.n + (topInteractiveList ns).length⟩) := by
  cases ns with
  | nil => simp [renderChildren, topInteractiveList, ilines, irefs]
  | cons c rest =>
    have heq : renderChildren (c :: rest) false opts 0 st
        = ((renderNode c opts 0 st).1
            ++ (renderChildren rest false opts 0 (renderNode c opts 0 st).2).1,
           (renderChildren rest false opts 0 (renderNode c opts 0 st).2).2) := by
      simp [renderChildren]
    rw [heq, renderNode_interactive c opts st hint]
    rw [renderChildren_interactive rest opts
      ⟨st.refs ++ irefs (topInteractive c) st.n,
        st.n + (topInteractive c).length⟩ hint]
    have hl : topInteractiveList (c :: rest)
        = topInteractive c ++ topInteractiveList rest := by
      simp [topInteractiveList]
    rw [hl, ilines_append, irefs_append]
    simp [List.append_assoc, List.length_append, Nat.add_assoc]

end

/-- C3 counterexample: in interactiveOnly mode, a tree holding two
interactive-role nodes (a button containing a link) renders a single line
with a single ref — the nested interactive node never appears, refuting the
claim that every interactive node appears exactly once. -/
theorem c3_counterexample :
    countInteractive (AXNode.mk "button" "button" "Submit" "" 1 []
        [AXNode.mk "link" "link" "Home" "" 2 [] []]) = 2
    ∧ (snapshotRender (AXNode.mk "button" "button" "Submit" "" 1 []
        [AXNode.mk "link" "link" "Home" "" 2 [] []]) true false none).1.length = 1
    ∧ (snapshotRender (AXNode.mk "button" "button" "Submit" "" 1 []
        [AXNode.mk "link" "link" "Home" "" 2 [] []]) true false none).2.refs.map
          Prod.fst = ["e1"] := by
  refine ⟨rfl, rfl, by decide⟩

/-- C3 (amended): with interactiveOnly set (any compact / maxDepth), the
render output is exactly one line and one ref entry per MAXIMAL
interactive-role node, in visitation order — interactive nodes nested
inside another interactive node are omitted. -/
theorem c3_interactive_completeness (root : AXNode) (compact : Bool)
    (maxDepth : Option Nat) :
    snapshotRender root true compact maxDepth
      = (ilines (topInteractive root) 0,
         ⟨irefs (topInteractive root) 0, (topInteractive root).length⟩) := by
  have h := renderNode_interactive root ⟨true, compact, maxDepth, none⟩ ⟨[], 0⟩ rfl
  show renderNode root ⟨true, compact, maxDepth, none⟩ 0 ⟨[], 0⟩ = _
  rw [h]
  simp

/-! ### Claim C4: compact pruning of empty structural wrappers -/


theorem interactive_not_structural {r : String} (h : isInteractiveRole r = true) :
    (isStructuralRole r || r == "none") = false := by
  have hm : r ∈ INTERACTIVE_ROLES := List.mem_of_elem_eq_true h
  fin_cases hm <;> decide

theorem depthExceeded_of_none {opts : RenderOpts} (h : opts.maxDepth = none)
    (depth : Nat) : depthExceeded opts depth = false := by
  simp [depthExceeded, h]

theorem jsStartsWith_extend {x p : String} (y : String)
    (h : jsStartsWith x p = true) : jsStartsWith (x ++ y) p = true := by
  simp only [jsStartsWith, String.data_append, List.isPrefixOf_iff_prefix] at *
  exact h.trans (List.prefix_append x.data y.data)

theorem eq_false_ne_true {b : Bool} (h : b = false) : ¬(b = true) :=
  fun hc => Bool.false_ne_true (h ▸ hc)

theorem jsStartsWith_app2 (u : String) {v w : String}
    (h : jsStartsWith v w = true) : jsStartsWith (u ++ v) (u ++ w) = true := by
  simp only [jsStartsWith, String.data_append, List.isPrefixOf_iff_prefix] at *
  obtain ⟨t, ht⟩ := h
  exact ⟨t, by rw [← ht, List.append_assoc]⟩

mutual

/-- Outside interactiveOnly mode, a render call's output is empty or starts
with a line indented for the call's own depth. -/
theorem renderNode_head (node : AXNode) (opts : RenderOpts) (depth : Nat)
    (st : RState) (hi : opts.interactive = false) :
    (renderNode node opts depth st).1 = []
    ∨ ∃ hd t, (renderNode node opts depth st).1 = hd :: t
        ∧ jsStartsWith hd (sIndent depth ++ "- ") = true := by
  rcases node with ⟨role, rawRole, name, value, bid, props, children⟩
  by_cases hskip : SKIP_ROLES.contains rawRole = true
  · by_cases hroot : (rawRole == "RootWebArea") = true
    · have heq : renderNode (.mk role rawRole name value bid props children)
          opts depth st = renderChildren children false opts depth st := by
        simp only [renderNode]
        rw [if_pos hskip, if_pos hroot]
      rw [heq]
      exact renderChildren_head children false opts depth st hi
    · left
      simp only [renderNode]
      rw [if_pos hskip, if_neg hroot]
  · by_cases hdep : depthExceeded opts depth = true
    · left
      simp only [renderNode]
      rw [if_neg hskip, if_pos hdep]
    · by_cases hc6 : (opts.compact && (isStructuralRole role || role == "none")
          && name == "") = true
      · by_cases hmean : hasMeaningfulContent
            (.mk role rawRole name value bid props children) = true
        · have heq : renderNode (.mk role rawRole name value bid props children)
              opts depth st = renderChildren children false opts depth st := by
            simp only [renderNode]
            rw [if_neg hskip, if_neg hdep, if_neg (by simp [hi]), if_pos hc6,
              if_pos hmean]
          rw [heq]
          exact renderChildren_head children false opts depth st hi
        · left
          simp only [renderNode]
          rw [if_neg hskip, if_neg hdep, if_neg (by simp [hi]), if_pos hc6,
            if_neg hmean]
      · by_cases htext : (role == "text") = true
        · simp only [renderNode]
          rw [if_neg hskip, if_neg hdep, if_neg (by simp [hi]), if_neg hc6,
            if_pos htext]
          split
          · left
            rfl
          · split
            · left
              rfl
            · right
              refine ⟨_, _, rfl, ?_⟩
              exact jsStartsWith_extend _ (jsStartsWith_app2 _ (by decide))
        · simp only [renderNode]
          rw [if_neg hskip, if_neg hdep, if_neg (by simp [hi]), if_neg hc6,
            if_neg htext]
          split
          · right
            refine ⟨_, _, rfl, ?_⟩
            repeat
              first
              | exact jsStartsWith_prefix _ _
              | apply jsStartsWith_extend
          · split
            · right
              refine ⟨_, _, rfl, ?_⟩
              repeat
                first
                | exact jsStartsWith_prefix _ _
                | apply jsStartsWith_extend
            · right
              refine ⟨_, _, rfl, ?_⟩
              repeat
                first
                | exact jsStartsWith_prefix _ _
                | apply jsStartsWith_extend

theorem renderChildren_head (ns : List AXNode) (skipText : Bool)
    (opts : RenderOpts) (depth : Nat) (st : RState)
    (hi : opts.interactive = false) :
    (renderChildren ns skipText opts depth st).1 = []
    ∨ ∃ hd t, (renderChildren ns skipText opts depth st).1 = hd :: t
        ∧ jsStartsWith hd (sIndent depth ++ "- ") = true := by
  cases ns with
  | nil =>
    left
    simp [renderChildren]
  | cons c rest =>
    by_cases hsk : (skipText && c.role == "text") = true
    · have heq : (renderChildren (c :: rest) skipText opts depth st).1
          = (renderChildren rest skipText opts depth st).1 := by
        simp only [renderChildren]
        rw [if_pos hsk]
        rfl
      rw [heq]
      exact renderChildren_head rest skipText opts depth st hi
    · have heq : (renderChildren (c :: rest) skipText opts depth st).1
          = (renderNode c opts depth st).1
            ++ (renderChildren rest skipText opts depth
                  (renderNode c opts depth st).2).1 := by
        simp only [renderChildren]
        rw [if_neg hsk]
      rw [heq]
      rcases renderNode_head c opts depth st hi with hnil | ⟨hd, t, hh, hp⟩
      · rw [hnil, List.nil_append]
        exact renderChildren_head rest skipText opts depth
          (renderNode c opts depth st).2 hi
      · right
        rw [hh, List.cons_append]
        exact ⟨hd, t ++ _, rfl, hp⟩

end

mutual

/-- In compact non-interactive mode with no depth cut, under a `none`
parent-name context, a skip-free text-leaf tree with meaningful content
renders at least one line, the first one indented for the call's depth. -/
theorem renderNode_meaningful (node : AXNode) (opts : RenderOpts) (depth : Nat)
    (st : RState) (hc : opts.compact = true) (hi : opts.interactive = false)
    (hmd : opts.maxDepth = none) (hpn : opts.parentName = none)
    (hns : noSkipSubtree node = true) (htl : textLeaves node = true)
    (hm : hasMeaningfulContent node = true) :
    ∃ hd t, (renderNode node opts depth st).1 = hd :: t
      ∧ jsStartsWith hd (sIndent depth ++ "- ") = true := by
  rcases node with ⟨role, rawRole, name, value, bid, props, children⟩
  simp only [noSkipSubtree, Bool.and_eq_true, Bool.not_eq_true'] at hns
  obtain ⟨hskip, hnsl⟩ := hns
  simp only [textLeaves, Bool.and_eq_true] at htl
  obtain ⟨htl0, htll⟩ := htl
  have hdep : depthExceeded opts depth = false := depthExceeded_of_none hmd depth
  simp only [hasMeaningfulContent] at hm
  by_cases hc6 : (opts.compact && (isStructuralRole role || role == "none")
      && name == "") = true
  · obtain ⟨hcs, hne⟩ := Bool.and_eq_true_iff.mp hc6
    obtain ⟨-, hsn⟩ := Bool.and_eq_true_iff.mp hcs
    have hml : hasMeaningfulContentList children = true := by
      rcases Bool.or_eq_true_iff.mp hm with h | hml
      · rcases Bool.or_eq_true_iff.mp h with h | h
        · rcases Bool.or_eq_true_iff.mp h with h | h
          · rw [interactive_not_structural h] at hsn
            exact absurd hsn (by decide)
          · obtain ⟨-, hnn⟩ := Bool.and_eq_true_iff.mp h
            rw [hne] at hnn
            exact absurd hnn (by decide)
        · obtain ⟨ht, -⟩ := Bool.and_eq_true_iff.mp h
          have : role = "text" := by simpa using ht
          subst this
          exact absurd hsn (by decide)
      · exact hml
    have hmean : hasMeaningfulContent
        (.mk role rawRole name value bid props children) = true := by
      simp only [hasMeaningfulContent]
      simp [hml]
    have heq : renderNode (.mk role rawRole name value bid props children)
        opts depth st = renderChildren children false opts depth st := by
      simp only [renderNode]
      rw [if_neg (eq_false_ne_true hskip), if_neg (eq_false_ne_true hdep),
        if_neg (eq_false_ne_true hi), if_pos hc6, if_pos hmean]
    rw [heq]
    exact renderChildren_meaningful children opts depth st hc hi hmd hpn
      hnsl htll hml
  · by_cases htext : (role == "text") = true
    · have hrole : role = "text" := by simpa using htext
      subst hrole
      have hemp : children = [] := by
        rcases Bool.or_eq_true_iff.mp htl0 with h | h
        · exact absurd h (by decide)
        · exact List.isEmpty_iff.mp h
      subst hemp
      have htr : (jsTrim name == "") = false := by
        rcases Bool.or_eq_true_iff.mp hm with h | hml
        · rcases Bool.or_eq_true_iff.mp h with h | h
          · rcases Bool.or_eq_true_iff.mp h with h | h
            · exact absurd h (by decide)
            · obtain ⟨h, -⟩ := Bool.and_eq_true_iff.mp h
              exact absurd h (by decide)
          · obtain ⟨-, h⟩ := Bool.and_eq_true_iff.mp h
            simpa using h
        · simp [hasMeaningfulContentList] at hml
      have heq : renderNode (.mk "text" rawRole name value bid props [])
          opts depth st = ([sIndent depth ++ "- text: " ++ jsTrim name], st) := by
        simp only [renderNode]
        rw [if_neg (eq_false_ne_true hskip), if_neg (eq_false_ne_true hdep),
          if_neg (eq_false_ne_true hi), if_neg hc6, if_pos (by decide), hpn]
        simp [htr]
      rw [heq]
      refine ⟨_, _, rfl, ?_⟩
      exact jsStartsWith_extend _ (jsStartsWith_app2 _ (by decide))
    · simp only [renderNode]
      rw [if_neg (eq_false_ne_true hskip), if_neg (eq_false_ne_true hdep),
        if_neg (eq_false_ne_true hi), if_neg hc6, if_neg htext]
      split
      · refine ⟨_, _, rfl, ?_⟩
        repeat
          first
          | exact jsStartsWith_prefix _ _
          | apply jsStartsWith_extend
      · split
        · refine ⟨_, _, rfl, ?_⟩
          repeat
            first
            | exact jsStartsWith_prefix _ _
            | apply jsStartsWith_extend
        · refine ⟨_, _, rfl, ?_⟩
          repeat
            first
            | exact jsStartsWith_prefix _ _
            | apply jsStartsWith_extend

theorem renderChildren_meaningful (ns : List AXNode) (opts : RenderOpts)
    (depth : Nat) (st : RState) (hc : opts.compact = true)
    (hi : opts.interactive = false) (hmd : opts.maxDepth = none)
    (hpn : opts.parentName = none) (hns : noSkipList ns = true)
    (htl : textLeavesList ns = true) (hm : hasMeaningfulContentList ns = true) :
    ∃ hd t, (renderChildren ns false opts depth st).1 = hd :: t
      ∧ jsStartsWith hd (sIndent depth ++ "- ") = true := by
  cases ns with
  | nil => simp [hasMeaningfulContentList] at hm
  | cons c rest =>
    simp only [noSkipList, Bool.and_eq_true] at hns
    obtain ⟨hnsc, hnsr⟩ := hns
    simp only [textLeavesList, Bool.and_eq_true] at htl
    obtain ⟨htlc, htlr⟩ := htl
    simp only [hasMeaningfulContentList] at hm
    have heq : (renderChildren (c :: rest) false opts depth st).1
        = (renderNode c opts depth st).1
          ++ (renderChildren rest false opts depth
                (renderNode c opts depth st).2).1 := by
      simp only [renderChildren]
      rw [if_neg (by simp)]
    rw [heq]
    rcases renderNode_head c opts depth st hi with hnil | ⟨hd, t, hh, hp⟩
    · rw [hnil, List.nil_append]
      rcases Bool.or_eq_true_iff.mp hm with hmc | hmr
      · obtain ⟨hd, t, hh, -⟩ := renderNode_meaningful c opts depth st hc hi hmd
          hpn hnsc htlc hmc
        rw [hnil] at hh
        exact absurd hh (by simp)
      · exact renderChildren_meaningful rest opts depth
          (renderNode c opts depth st).2 hc hi hmd hpn hnsr htlr hmr
    · rw [hh, List.cons_append]
      exact ⟨hd, t ++ _, rfl, hp⟩

end

/-- C4 counterexample: in compact mode, an empty-named `generic` wrapper
whose only descendant is the non-blank text "Foo" HAS meaningful content,
yet when its parent is an `article` named "Foo" the whole render emits only
the article line — the spliced text is suppressed by the duplicate-text
rule, so no descendant line appears at (or below) the wrapper's depth,
refuting the claim's second half. -/
theorem c4_counterexample :
    hasMeaningfulContent (AXNode.mk "generic" "generic" "" "" 2 []
        [AXNode.mk "text" "StaticText" "Foo" "" 3 [] []]) = true
    ∧ (snapshotRender (AXNode.mk "article" "article" "Foo" "" 1 []
        [AXNode.mk "generic" "generic" "" "" 2 []
          [AXNode.mk "text" "StaticText" "Foo" "" 3 [] []]]) false true none).1
      = ["- article \"Foo\" [ref=e1]"] := by
  exact ⟨rfl, by decide⟩

/-- C4 (amended): in compact non-interactive mode within the depth limit, a
structural-role (or `none`-role) node with empty name renders no line of its
own: with no meaningful descendant it emits nothing, and with meaningful
content its children are spliced in at the node's own depth; moreover, if
additionally no depth cut is set, the surrounding parent-name context is
empty, and the subtree is skip-free with leaf-only text nodes, the splice is
non-empty and its first line is indented for the node's own depth. -/
theorem c4_compact_pruning (role rawRole value : String) (bid : Nat)
    (props : List AXProperty) (children : List AXNode) (opts : RenderOpts)
    (depth : Nat) (st : RState)
    (hc : opts.compact = true) (hi : opts.interactive = false)
    (hs : (isStructuralRole role || role == "none") = true)
    (hskip : SKIP_ROLES.contains rawRole = false)
    (hdep : depthExceeded opts depth = false) :
    (hasMeaningfulContent (AXNode.mk role rawRole "" value bid props children)
        = false →
      renderNode (AXNode.mk role rawRole "" value bid props children)
        opts depth st = ([], st))
    ∧ (hasMeaningfulContent (AXNode.mk role rawRole "" value bid props children)
        = true →
      renderNode (AXNode.mk role rawRole "" value bid props children)
        opts depth st = renderChildren children false opts depth st)
    ∧ (hasMeaningfulContent (AXNode.mk role rawRole "" value bid props children)
          = true →
        opts.maxDepth = none → opts.parentName = none →
        noSkipList children = true → textLeavesList children = true →
      ∃ hd t,
        (renderNode (AXNode.mk role rawRole "" value bid props children)
            opts depth st).1 = hd :: t
        ∧ jsStartsWith hd (sIndent depth ++ "- ") = true) := by
  have hc6 : (opts.compact && (isStructuralRole role || role == "none")
      && ("" == "")) = true := by
    rw [hc, hs]
    rfl
  refine ⟨?_, ?_, ?_⟩
  · intro hmean
    simp only [renderNode]
    rw [if_neg (eq_false_ne_true hskip), if_neg (eq_false_ne_true hdep),
      if_neg (eq_false_ne_true hi), if_pos hc6, if_neg (by simp [hmean])]
  · intro hmean
    simp only [renderNode]
    rw [if_neg (eq_false_ne_true hskip), if_neg (eq_false_ne_true hdep),
      if_neg (eq_false_ne_true hi), if_pos hc6, if_pos hmean]
  · intro hmean hmd hpn hnsl htll
    have hml : hasMeaningfulContentList children = true := by
      simp only [hasMeaningfulContent] at hmean
      rcases Bool.or_eq_true_iff.mp hmean with h | hml
      · rcases Bool.or_eq_true_iff.mp h with h | h
        · rcases Bool.or_eq_true_iff.mp h with h | h
          · rw [interactive_not_structural h] at hs
            exact absurd hs (by decide)
          · obtain ⟨-, hnn⟩ := Bool.and_eq_true_iff.mp h
            exact absurd hnn (by decide)
        · obtain ⟨ht, -⟩ := Bool.and_eq_true_iff.mp h
          have hrole : role = "text" := by simpa using ht
          rw [hrole] at hs
          exact absurd hs (by decide)
      · exact hml
    have heq : renderNode (AXNode.mk role rawRole "" value bid props children)
        opts depth st = renderChildren children false opts depth st := by
      simp only [renderNode]
      rw [if_neg (eq_false_ne_true hskip), if_neg (eq_false_ne_true hdep),
        if_neg (eq_false_ne_true hi), if_pos hc6, if_pos hmean]
    rw [heq]
    exact renderChildren_meaningful children opts depth st hc hi hmd hpn
      hnsl htll hml

/-- C4 witness: the amended theorem applied to a concrete empty-named
`generic` wrapper over the text "Foo", in compact mode at depth 1: the
wrapper emits no line of its own, splices its children at depth 1, and the
first spliced line is indented for depth 1. -/
theorem c4_compact_pruning_witness :
    (hasMeaningfulContent (AXNode.mk "generic" "generic" "" "" 2 []
        [AXNode.mk "text" "StaticText" "Foo" "" 3 [] []]) = false →
      renderNode (AXNode.mk "generic" "generic" "" "" 2 []
          [AXNode.mk "text" "StaticText" "Foo" "" 3 [] []])
        ⟨false, true, none, none⟩ 1 ⟨[], 0⟩ = ([], ⟨[], 0⟩))
    ∧ (hasMeaningfulContent (AXNode.mk "generic" "generic" "" "" 2 []
        [AXNode.mk "text" "StaticText" "Foo" "" 3 [] []]) = true →
      renderNode (AXNode.mk "generic" "generic" "" "" 2 []
          [AXNode.mk "text" "StaticText" "Foo" "" 3 [] []])
        ⟨false, true, none, none⟩ 1 ⟨[], 0⟩
        = renderChildren [AXNode.mk "text" "StaticText" "Foo" "" 3 [] []]
            false ⟨false, true, none, none⟩ 1 ⟨[], 0⟩)
    ∧ (hasMeaningfulContent (AXNode.mk "generic" "generic" "" "" 2 []
          [AXNode.mk "text" "StaticText" "Foo" "" 3 [] []]) = true →
        (⟨false, true, none, none⟩ : RenderOpts).maxDepth = none →
        (⟨false, true, none, none⟩ : RenderOpts).parentName = none →
        noSkipList [AXNode.mk "text" "StaticText" "Foo" "" 3 [] []] = true →
        textLeavesList [AXNode.mk "text" "StaticText" "Foo" "" 3 [] []] = true →
      ∃ hd t,
        (renderNode (AXNode.mk "generic" "generic" "" "" 2 []
            [AXNode.mk "text" "StaticText" "Foo" "" 3 [] []])
          ⟨false, true, none, none⟩ 1 ⟨[], 0⟩).1 = hd :: t
        ∧ jsStartsWith hd (sIndent 1 ++ "- ") = true) :=
  c4_compact_pruning "generic" "generic" "" 2 []
    [AXNode.mk "text" "StaticText" "Foo" "" 3 [] []]
    ⟨false, true, none, none⟩ 1 ⟨[], 0⟩ rfl rfl (by decide) (by decide) rfl

/-! ### Claim C1: atomicity of concurrent puts to one key -/


/-- C1: `n ≥ 2` processes each issue one `put` (the write-temp-then-rename
discipline of `atomicWriteFileSync`, hence of `saveRefs` and `saveTabMap`;
see `wstep_twice`) to the same key, with syntactically distinct serialized
documents and non-colliding random temp names.  After every complete
interleaving, the key holds exactly one of the written documents, in full
and parseable, and no temp file of any writer remains. -/
theorem c1_concurrent_puts {α : Type} (dec : String → Option α)
    (enc : α → String) (key : String) (d : Nat → α) (hexes : Nat → String)
    (n : Nat) (hn : 2 ≤ n)
    (hexinj : ∀ i j, i < n → j < n → hexes i = hexes j → i = j)
    (hdistinct : ∀ i j, i < n → j < n → enc (d i) = enc (d j) → i = j)
    (hrt : ∀ x : α, dec (enc x) = some x)
    (fs0 : FS) (sched : List Nat)
    (hmem : ∀ p ∈ sched, p < n)
    (hcount : ∀ i, i < n → sched.count i = 2) :
    (∃ j, j < n
      ∧ (wrun key (fun i => enc (d i)) hexes sched ⟨fs0, fun _ => 0⟩).fs key
          = some (enc (d j))
      ∧ ((wrun key (fun i => enc (d i)) hexes sched ⟨fs0, fun _ => 0⟩).fs key).bind dec
          = some (d j)
      ∧ (∀ i, i < n →
          (wrun key (fun i => enc (d i)) hexes sched ⟨fs0, fun _ => 0⟩).fs key
            = some (enc (d i)) → i = j))
    ∧ (∀ i, i < n →
        (wrun key (fun i => enc (d i)) hexes sched ⟨fs0, fun _ => 0⟩).fs
          (tmpName key (hexes i)) = none) := by
  have hres := @wrun_result key (fun i => enc (d i)) hexes n
    fs0 sched hexinj hmem hcount (by omega)
  obtain ⟨⟨j, hj, hkey⟩, htmp⟩ := hres
  refine ⟨⟨j, hj, hkey, ?_, ?_⟩, htmp⟩
  · rw [hkey]
    simp [hrt]
  · intro i hi hkey2
    rw [hkey] at hkey2
    exact hdistinct i j hi hj (by simpa using hkey2.symm)

/-- Witness for C1 at concrete inputs: two writers, fully interleaved
schedule (both temp writes happen before either rename). -/
theorem c1_concurrent_puts_witness :
    (∃ j, j < 2
      ∧ (wrun "k" (fun i => (fun x : String => x)
            ((fun i => if i = 0 then "docA" else "docB") i))
          (fun i => Nat.repr i) [0, 1, 0, 1] ⟨fsEmpty, fun _ => 0⟩).fs "k"
          = some ((fun x : String => x)
              ((fun i => if i = 0 then "docA" else "docB") j))
      ∧ ((wrun "k" (fun i => (fun x : String => x)
            ((fun i => if i = 0 then "docA" else "docB") i))
          (fun i => Nat.repr i) [0, 1, 0, 1] ⟨fsEmpty, fun _ => 0⟩).fs "k").bind
            (fun s => some s)
          = some ((fun i => if i = 0 then "docA" else "docB") j)
      ∧ (∀ i, i < 2 →
          (wrun "k" (fun i => (fun x : String => x)
              ((fun i => if i = 0 then "docA" else "docB") i))
            (fun i => Nat.repr i) [0, 1, 0, 1] ⟨fsEmpty, fun _ => 0⟩).fs "k"
            = some ((fun x : String => x)
                ((fun i => if i = 0 then "docA" else "docB") i)) → i = j))
    ∧ (∀ i, i < 2 →
        (wrun "k" (fun i => (fun x : String => x)
            ((fun i => if i = 0 then "docA" else "docB") i))
          (fun i => Nat.repr i) [0, 1, 0, 1] ⟨fsEmpty, fun _ => 0⟩).fs
          (tmpName "k" (Nat.repr i)) = none) :=
  c1_concurrent_puts (fun s => some s) (fun x : String => x) "k"
    (fun i => if i = 0 then "docA" else "docB") (fun i => Nat.repr i) 2
    (by decide)
    (by intro i j hi hj h
        interval_cases i <;> interval_cases j <;> revert h <;> decide)
    (by intro i j hi hj h
        interval_cases i <;> interval_cases j <;> revert h <;> decide)
    (fun x => rfl) fsEmpty [0, 1, 0, 1]
    (by decide)
    (by intro i hi; interval_cases i <;> decide)

end AgentChrome

